import Mathlib

/-!
Verification of the profile-fitting core of `hipercam/fitting.py`.

The Python module fits a symmetric 2D Gaussian or Moffat profile plus a
constant background to a rectangular pixel window, with per-pixel noise
`sqrt(read^2 + max(0, data)/gain)`, a two-stage FWHM strategy (free fit,
falling back to a fixed-FWHM fit when the fitted FWHM drops to or below a
floor), and an iterative sigma-clipping rejection loop.

The shallow embedding below models:
 * 2D arrays as `List ℝ` in row-major order (all arrays of one fit call
   share the window's shape, so one index space suffices);
 * the profile and derivative functions `moffat`, `dmoffat`, `gaussian`,
   `dgaussian` pointwise over ℝ, with vectorized versions mapping over the
   coordinate grid;
 * the residual / Jacobian function objects (`Mfit1`, `Dmfit1`, `Mfit2`,
   `Dmfit2`, `Gfit1`, `Dgfit1`, `Gfit2`, `Dgfit2`) as pure functions of
   their (sigma, data, grid) state, and, where the frame behaviour matters,
   as explicit state-passing functions returning the post-call state;
 * `scipy.optimize.leastsq` — an external collaborator, not repository
   code — as an abstract solver oracle that, for a given sigma array
   (every other input of a solve is fixed for the duration of one fit
   call), returns the solution vector, the diagonal of the covariance
   matrix, the model image evaluated at the solution, and the status
   code `ier` with its message;
 * the drivers `fitMoffat` / `fitGaussian` as a shared rejection loop
   `fitLoop` over a per-iteration two-stage pass (`moffatOnePass` /
   `gaussianOnePass`), by well-founded recursion on the number of
   included pixels.
-/

namespace Hipercam

/-! ### Noise model (`Mfit1.__init__` etc.):
`self.sigma = np.sqrt(read**2 + np.maximum(0, wind.data)/gain)` -/

noncomputable def sigmaInit (read gain : ℝ) (data : List ℝ) : List ℝ :=
  data.map (fun d => Real.sqrt (read ^ 2 + max 0 d / gain))

/-! ### Profile functions -/

/-- `moffat` (pointwise): `height/(1+alpha*rsq)**max(0.01,beta) + sky` with
`alpha = 4*(2**(1./max(0.01,beta))-1)/fwhm**2`. -/
noncomputable def moffat (x y sky height xcen ycen fwhm beta : ℝ) : ℝ :=
  let rsq := (x - xcen) ^ 2 + (y - ycen) ^ 2
  let alpha := 4 * ((2 : ℝ) ^ (1 / max 0.01 beta) - 1) / fwhm ^ 2
  height / (1 + alpha * rsq) ^ max 0.01 beta + sky

/-- `gaussian` (pointwise): `sky + height*np.exp(-alpha*rsq)` with
`alpha = 4.*np.log(2.)/fwhm**2`. -/
noncomputable def gaussian (x y sky height xcen ycen fwhm : ℝ) : ℝ :=
  let rsq := (x - xcen) ^ 2 + (y - ycen) ^ 2
  let alpha := 4 * Real.log 2 / fwhm ^ 2
  sky + height * Real.exp (-alpha * rsq)

/-- `dmoffat` (pointwise): the list of partial derivatives of the Moffat
model, in parameter order; with `skip_dfwhm` the FWHM derivative is
omitted. Transcribed from the source body. -/
noncomputable def dmoffat (x y _sky height xcen ycen fwhm beta : ℝ)
    (skip_dfwhm : Bool) : List ℝ :=
  let blim := max 0.01 beta
  let alpha := 4 * ((2 : ℝ) ^ (1 / blim) - 1) / fwhm ^ 2
  let xoff := x - xcen
  let yoff := y - ycen
  let rsq := xoff ^ 2 + yoff ^ 2
  let denom := 1 + alpha * rsq
  let save1 := height / denom ^ (blim + 1)
  let save2 := save1 * rsq
  let d_sky := (1 : ℝ)
  let d_height := 1 / denom ^ blim
  let d_xcen := (2 * alpha * blim) * xoff * save1
  let d_ycen := (2 * alpha * blim) * yoff * save1
  let d_beta := -Real.log denom * height * d_height
      + (4 * Real.log 2 * (2 : ℝ) ^ (1 / blim) / blim / fwhm ^ 2) * save2
  if skip_dfwhm then
    [d_sky, d_height, d_xcen, d_ycen, d_beta]
  else
    let d_fwhm := (2 * alpha * blim / fwhm) * save2
    [d_sky, d_height, d_xcen, d_ycen, d_fwhm, d_beta]

/-- `dgaussian` (pointwise): partial derivatives of the Gaussian model;
with `skip_dfwhm` the FWHM derivative is omitted. -/
noncomputable def dgaussian (x y _sky height xcen ycen fwhm : ℝ)
    (skip_dfwhm : Bool) : List ℝ :=
  let alpha := 4 * Real.log 2 / fwhm ^ 2
  let xoff := x - xcen
  let yoff := y - ycen
  let rsq := xoff ^ 2 + yoff ^ 2
  let d_sky := (1 : ℝ)
  let d_height := Real.exp (-alpha * rsq)
  let d_xcen := (2 * alpha * height) * d_height * xoff
  let d_ycen := (2 * alpha * height) * d_height * yoff
  if skip_dfwhm then
    [d_sky, d_height, d_xcen, d_ycen]
  else
    let d_fwhm := (2 * alpha * height / fwhm) * d_height * rsq
    [d_sky, d_height, d_xcen, d_ycen, d_fwhm]

/-- Vectorized Moffat model over the coordinate grid (row-major list of
pixel centre coordinates). -/
noncomputable def moffatArr (xy : List (ℝ × ℝ)) (sky height xcen ycen fwhm beta : ℝ) :
    List ℝ :=
  xy.map (fun p => moffat p.1 p.2 sky height xcen ycen fwhm beta)

/-- Vectorized Gaussian model over the coordinate grid. -/
noncomputable def gaussianArr (xy : List (ℝ × ℝ)) (sky height xcen ycen fwhm : ℝ) :
    List ℝ :=
  xy.map (fun p => gaussian p.1 p.2 sky height xcen ycen fwhm)

/-! ### Residual selection (`__call__` of the fit objects):
`diff = (data - mod)/sigma; ok = sigma > 0; return diff[ok]` -/

/-- Number of included pixels: entries of the sigma array that are
strictly positive (`len(sigma[sigma > 0])`). -/
noncomputable def countIncluded (sigma : List ℝ) : ℕ :=
  (sigma.filter (fun s => decide (0 < s))).length

/-- Indices of the included pixels, in increasing order. -/
noncomputable def includedIdx (sigma : List ℝ) : List ℕ :=
  (List.range sigma.length).filter (fun i => decide (0 < sigma.getD i 0))

/-- The shared body of `Mfit1.__call__`, `Mfit2.__call__`,
`Gfit1.__call__`, `Gfit2.__call__`: normalised residuals over the
included pixels. -/
noncomputable def fitResid (data mod sigma : List ℝ) : List ℝ :=
  let diff := List.zipWith (fun df s => df / s) (List.zipWith (fun d m => d - m) data mod) sigma
  (((diff.zip sigma).filter (fun p => decide (0 < p.2))).map Prod.fst)

/-- The shared body of the Jacobian objects' `__call__`:
`[(-deriv[ok]/sigma[ok]).ravel() for deriv in derivs]`. -/
noncomputable def jacSelect (derivs : List (List ℝ)) (sigma : List ℝ) : List (List ℝ) :=
  derivs.map (fun dv =>
    (((dv.zip sigma).filter (fun p => decide (0 < p.2))).map (fun p => -p.1 / p.2)))

/-- State of an `Mfit1` object (and, sharing `sigma` and `xy` by
reference, of its `Dmfit1` companion). -/
structure Mfit1St where
  sigma : List ℝ
  data : List ℝ
  xy : List (ℝ × ℝ)

/-- `Mfit1.__call__` as a pure function of the object state. -/
noncomputable def Mfit1.call (o : Mfit1St) (sky height xcen ycen fwhm beta : ℝ) :
    List ℝ :=
  fitResid o.data (moffatArr o.xy sky height xcen ycen fwhm beta) o.sigma

/-- `Gfit1.__call__` as a pure function of the object state (the state
record has the same shape as `Mfit1St`). -/
noncomputable def Gfit1.call (o : Mfit1St) (sky height xcen ycen fwhm : ℝ) :
    List ℝ :=
  fitResid o.data (gaussianArr o.xy sky height xcen ycen fwhm) o.sigma

/-- State of an `Mfit2` / `Gfit2` object: the fixed FWHM is object state,
mutated by the driver between fit attempts. -/
structure Mfit2St where
  sigma : List ℝ
  data : List ℝ
  xy : List (ℝ × ℝ)
  fwhm : ℝ

/-- `Mfit2.__call__` as a pure function of the object state. -/
noncomputable def Mfit2.call (o : Mfit2St) (sky height xcen ycen beta : ℝ) :
    List ℝ :=
  fitResid o.data (moffatArr o.xy sky height xcen ycen o.fwhm beta) o.sigma

/-- `Gfit2.__call__` as a pure function of the object state. -/
noncomputable def Gfit2.call (o : Mfit2St) (sky height xcen ycen : ℝ) :
    List ℝ :=
  fitResid o.data (gaussianArr o.xy sky height xcen ycen o.fwhm) o.sigma

/-! ### One iteration of the rejection step (`fitMoffat` lines 306-323 /
`fitGaussian` lines 778-795):
```
ok = sigma > 0
resid = (data - fit.data) / sigma
chisq = (resid[ok]**2).sum()
nok1 = len(resid[ok])
sfac = np.sqrt(chisq/(nok1-len(soln)))
sigma[ok & (np.abs(resid) > sfac*thresh)] *= -1
```
All arrays share the window's shape in the program; the list embedding
pairs entries positionally. -/

/-- The elementwise normalised residual array `(data - fitimg)/sigma`. -/
noncomputable def residList (data fitimg sigma : List ℝ) : List ℝ :=
  List.zipWith (fun df s => df / s)
    (List.zipWith (fun d f => d - f) data fitimg) sigma

/-- `chisq = (resid[ok]**2).sum()`. -/
noncomputable def chisqOf (data fitimg sigma : List ℝ) : ℝ :=
  ((((residList data fitimg sigma).zip sigma).filter
      (fun p => decide (0 < p.2))).map (fun p => p.1 ^ 2)).sum

/-- `nok1 = len(resid[ok])`. -/
noncomputable def nok1Of (data fitimg sigma : List ℝ) : ℕ :=
  (((residList data fitimg sigma).zip sigma).filter
      (fun p => decide (0 < p.2))).length

/-- `sfac = np.sqrt(chisq/(nok1 - len(soln)))`. -/
noncomputable def sfacOf (data fitimg sigma : List ℝ) (nsoln : ℕ) : ℝ :=
  Real.sqrt (chisqOf data fitimg sigma /
    ((nok1Of data fitimg sigma : ℝ) - (nsoln : ℝ)))

/-- `sigma[ok & (np.abs(resid) > bound)] *= -1` with `bound = sfac*thresh`:
negate exactly the included entries whose residual strictly exceeds the
bound. -/
noncomputable def rejectList (resid sigma : List ℝ) (bound : ℝ) : List ℝ :=
  match resid, sigma with
  | r :: rs, s :: ss =>
      (if 0 < s ∧ bound < |r| then -s else s) :: rejectList rs ss bound
  | [], ss => ss
  | _, [] => []

/-! ### The abstract least-squares solver.
`scipy.optimize.leastsq` is an external collaborator.  Within one fit
call the data, coordinate grid and initial parameter values are fixed,
and the solver is deterministic, so each solve's outcome is a function of
the current sigma array alone (plus, for the fixed-FWHM objects, the
pinned FWHM value).  An oracle value bundles the solution vector, the
diagonal of the covariance matrix `covar` (the driver takes
`np.sqrt(np.diag(covar))` itself), the model image evaluated at the
solution (`mfit.model(soln)`), and the solver status `ier` with its
message. -/

/-- Outcome of a free-FWHM Moffat solve (6 parameters). -/
structure MFree where
  sky : ℝ
  height : ℝ
  x : ℝ
  y : ℝ
  fwhm : ℝ
  beta : ℝ
  csky : ℝ
  cheight : ℝ
  cx : ℝ
  cy : ℝ
  cfwhm : ℝ
  cbeta : ℝ
  fitimg : List ℝ
  ier : ℤ
  mesg : String

/-- Outcome of a fixed-FWHM Moffat solve (5 parameters). -/
structure MFixed where
  sky : ℝ
  height : ℝ
  x : ℝ
  y : ℝ
  beta : ℝ
  csky : ℝ
  cheight : ℝ
  cx : ℝ
  cy : ℝ
  cbeta : ℝ
  fitimg : List ℝ
  ier : ℤ
  mesg : String

/-- The solver oracle for `fitMoffat`: `free` is the `leastsq` call on
`(mfit1, dmfit1)`, `fixed fw` the call on `(mfit2, dmfit2)` with
`mfit2.fwhm = dmfit2.fwhm = fw`. -/
structure MSolver where
  free : List ℝ → MFree
  fixed : ℝ → List ℝ → MFixed

/-- Outcome of a free-FWHM Gaussian solve (5 parameters). -/
structure GFree where
  sky : ℝ
  height : ℝ
  x : ℝ
  y : ℝ
  fwhm : ℝ
  csky : ℝ
  cheight : ℝ
  cx : ℝ
  cy : ℝ
  cfwhm : ℝ
  fitimg : List ℝ
  ier : ℤ
  mesg : String

/-- Outcome of a fixed-FWHM Gaussian solve (4 parameters). -/
structure GFixed where
  sky : ℝ
  height : ℝ
  x : ℝ
  y : ℝ
  csky : ℝ
  cheight : ℝ
  cx : ℝ
  cy : ℝ
  fitimg : List ℝ
  ier : ℤ
  mesg : String

/-- The solver oracle for `fitGaussian`. -/
structure GSolver where
  free : List ℝ → GFree
  fixed : ℝ → List ℝ → GFixed

/-! ### One two-stage fitting pass (the body of the rejection loop up to
the outlier search). -/

/-- The values a pass hands to the rejection step and, on the final
iteration, to the result: fitted parameters, the standard errors
`np.sqrt(np.diag(covar))` (with the -1 sentinel for an FWHM that was not
estimated), the fit image and `len(soln)`.  The beta slots are `none`
for the Gaussian family. -/
structure PassSt where
  skyf : ℝ
  heightf : ℝ
  xf : ℝ
  yf : ℝ
  fwhmf : ℝ
  betaf : Option ℝ
  skyfe : ℝ
  heightfe : ℝ
  xfe : ℝ
  yfe : ℝ
  fwhmfe : ℝ
  betafe : Option ℝ
  fitimg : List ℝ
  nsoln : ℕ

/-- One two-stage Moffat pass (`fitMoffat` lines 246-304): fixed-FWHM
solve if `fwhm_fix`, otherwise a free solve, falling back to a solve with
FWHM pinned at `fwhm_min` unless the fitted FWHM exceeds `fwhm_min`.
Raising `HipercamError` on `ier < 1 or ier > 4` is the `.error` case. -/
noncomputable def moffatOnePass (S : MSolver) (fwhm fwhm_min : ℝ) (fwhm_fix : Bool)
    (sigma : List ℝ) : Except String PassSt :=
  if fwhm_fix then
    let r := S.fixed fwhm sigma
    if r.ier < 1 ∨ 4 < r.ier then .error r.mesg
    else .ok {
      skyf := r.sky, heightf := r.height, xf := r.x, yf := r.y,
      fwhmf := fwhm, betaf := some r.beta,
      skyfe := Real.sqrt r.csky, heightfe := Real.sqrt r.cheight,
      xfe := Real.sqrt r.cx, yfe := Real.sqrt r.cy,
      fwhmfe := -1, betafe := some (Real.sqrt r.cbeta),
      fitimg := r.fitimg, nsoln := 5 }
  else
    let r := S.free sigma
    if r.ier < 1 ∨ 4 < r.ier then .error r.mesg
    else if fwhm_min < r.fwhm then
      .ok {
        skyf := r.sky, heightf := r.height, xf := r.x, yf := r.y,
        fwhmf := r.fwhm, betaf := some r.beta,
        skyfe := Real.sqrt r.csky, heightfe := Real.sqrt r.cheight,
        xfe := Real.sqrt r.cx, yfe := Real.sqrt r.cy,
        fwhmfe := Real.sqrt r.cfwhm, betafe := some (Real.sqrt r.cbeta),
        fitimg := r.fitimg, nsoln := 6 }
    else
      let r2 := S.fixed fwhm_min sigma
      if r2.ier < 1 ∨ 4 < r2.ier then .error r2.mesg
      else .ok {
        skyf := r2.sky, heightf := r2.height, xf := r2.x, yf := r2.y,
        fwhmf := fwhm_min, betaf := some r2.beta,
        skyfe := Real.sqrt r2.csky, heightfe := Real.sqrt r2.cheight,
        xfe := Real.sqrt r2.cx, yfe := Real.sqrt r2.cy,
        fwhmfe := -1, betafe := some (Real.sqrt r2.cbeta),
        fitimg := r2.fitimg, nsoln := 5 }

/-- One two-stage Gaussian pass (`fitGaussian` lines 719-776). -/
noncomputable def gaussianOnePass (S : GSolver) (fwhm fwhm_min : ℝ) (fwhm_fix : Bool)
    (sigma : List ℝ) : Except String PassSt :=
  if fwhm_fix then
    let r := S.fixed fwhm sigma
    if r.ier < 1 ∨ 4 < r.ier then .error r.mesg
    else .ok {
      skyf := r.sky, heightf := r.height, xf := r.x, yf := r.y,
      fwhmf := fwhm, betaf := none,
      skyfe := Real.sqrt r.csky, heightfe := Real.sqrt r.cheight,
      xfe := Real.sqrt r.cx, yfe := Real.sqrt r.cy,
      fwhmfe := -1, betafe := none,
      fitimg := r.fitimg, nsoln := 4 }
  else
    let r := S.free sigma
    if r.ier < 1 ∨ 4 < r.ier then .error r.mesg
    else if fwhm_min < r.fwhm then
      .ok {
        skyf := r.sky, heightf := r.height, xf := r.x, yf := r.y,
        fwhmf := r.fwhm, betaf := none,
        skyfe := Real.sqrt r.csky, heightfe := Real.sqrt r.cheight,
        xfe := Real.sqrt r.cx, yfe := Real.sqrt r.cy,
        fwhmfe := Real.sqrt r.cfwhm, betafe := none,
        fitimg := r.fitimg, nsoln := 5 }
    else
      let r2 := S.fixed fwhm_min sigma
      if r2.ier < 1 ∨ 4 < r2.ier then .error r2.mesg
      else .ok {
        skyf := r2.sky, heightf := r2.height, xf := r2.x, yf := r2.y,
        fwhmf := fwhm_min, betaf := none,
        skyfe := Real.sqrt r2.csky, heightfe := Real.sqrt r2.cheight,
        xfe := Real.sqrt r2.cx, yfe := Real.sqrt r2.cy,
        fwhmfe := -1, betafe := none,
        fitimg := r2.fitimg, nsoln := 4 }

/-! ### The rejection loop -/

/-- The tuple of tuples returned by `fitMoffat` / `fitGaussian`.  The
beta slots are `none` for the Gaussian family. -/
structure FitRes where
  skyf : ℝ
  heightf : ℝ
  xf : ℝ
  yf : ℝ
  fwhmf : ℝ
  betaf : Option ℝ
  skyfe : ℝ
  heightfe : ℝ
  xfe : ℝ
  yfe : ℝ
  fwhmfe : ℝ
  betafe : Option ℝ
  fitimg : List ℝ
  sigma : List ℝ
  chisq : ℝ
  nok : ℕ
  nrej : ℕ
  npar : ℕ

/-- The result record emitted when no new pixel was rejected: all
standard errors rescaled by `sfac`, the FWHM error only when positive
(`if fwhmfe > 0: fwhmfe *= sfac`). -/
noncomputable def finalRes (st : PassSt) (sigma1 : List ℝ) (chisq sfac : ℝ)
    (nok : ℕ) : FitRes :=
  { skyf := st.skyf, heightf := st.heightf, xf := st.xf, yf := st.yf,
    fwhmf := st.fwhmf, betaf := st.betaf,
    skyfe := st.skyfe * sfac, heightfe := st.heightfe * sfac,
    xfe := st.xfe * sfac, yfe := st.yfe * sfac,
    fwhmfe := if 0 < st.fwhmfe then st.fwhmfe * sfac else st.fwhmfe,
    betafe := st.betafe.map (fun e => e * sfac),
    fitimg := st.fitimg, sigma := sigma1, chisq := chisq,
    nok := nok, nrej := sigma1.length - nok, npar := st.nsoln }

/-- The rejection loop shared by `fitMoffat` and `fitGaussian` (lines
239-335 resp. 712-806): run a two-stage pass, search for outliers, and
repeat on the updated sigma array while new pixels were rejected;
otherwise rescale the errors and emit the result.  The source loop is
`while True`; it is well-founded because the guard `nok < nok1` forces
the number of included pixels to decrease. -/
noncomputable def fitLoop (pass : List ℝ → Except String PassSt)
    (data : List ℝ) (thresh : ℝ) (sigma : List ℝ) : Except String FitRes :=
  match pass sigma with
  | .error e => .error e
  | .ok st =>
      let chisq := chisqOf data st.fitimg sigma
      let nok1 := nok1Of data st.fitimg sigma
      let sfac := sfacOf data st.fitimg sigma st.nsoln
      let sigma1 := rejectList (residList data st.fitimg sigma) sigma (sfac * thresh)
      if h : countIncluded sigma1 < nok1 then
        fitLoop pass data thresh sigma1
      else
        .ok (finalRes st sigma1 chisq sfac (countIncluded sigma1))
termination_by countIncluded sigma
decreasing_by
  have hle : nok1Of data st.fitimg sigma ≤ countIncluded sigma := by
    unfold nok1Of countIncluded
    generalize residList data st.fitimg sigma = l
    clear h
    induction l generalizing sigma with
    | nil => simp
    | cons a l ih =>
        cases sigma with
        | nil => simp
        | cons s ss =>
            simp only [List.zip_cons_cons, List.filter_cons, decide_eq_true_eq]
            by_cases hs : 0 < s
            · rw [if_pos hs, if_pos hs]
              simpa using Nat.succ_le_succ (ih ss)
            · rw [if_neg hs, if_neg hs]
              exact ih ss
  exact lt_of_lt_of_le h hle

/-- `fitMoffat`: sigma arrays constructed by `Mfit1.__init__` etc., then
the rejection loop over the two-stage Moffat pass. -/
noncomputable def fitMoffat (S : MSolver) (fwhm fwhm_min : ℝ) (fwhm_fix : Bool)
    (data : List ℝ) (read gain thresh : ℝ) : Except String FitRes :=
  fitLoop (moffatOnePass S fwhm fwhm_min fwhm_fix) data thresh
    (sigmaInit read gain data)

/-- `fitGaussian`: as `fitMoffat` with the Gaussian pass. -/
noncomputable def fitGaussian (S : GSolver) (fwhm fwhm_min : ℝ) (fwhm_fix : Bool)
    (data : List ℝ) (read gain thresh : ℝ) : Except String FitRes :=
  fitLoop (gaussianOnePass S fwhm fwhm_min fwhm_fix) data thresh
    (sigmaInit read gain data)

/-- The rejection loop with an explicit iteration budget: `none` when the
budget is exhausted before the loop exits.  Used to express that the
unbounded source loop needs only finitely many iterations. -/
noncomputable def fitLoopFuel (pass : List ℝ → Except String PassSt)
    (data : List ℝ) (thresh : ℝ) : ℕ → List ℝ → Option (Except String FitRes)
  | 0, _ => none
  | fuel + 1, sigma =>
      match pass sigma with
      | .error e => some (.error e)
      | .ok st =>
          let chisq := chisqOf data st.fitimg sigma
          let nok1 := nok1Of data st.fitimg sigma
          let sfac := sfacOf data st.fitimg sigma st.nsoln
          let sigma1 := rejectList (residList data st.fitimg sigma) sigma (sfac * thresh)
          let nok := countIncluded sigma1
          if nok < nok1 then
            fitLoopFuel pass data thresh fuel sigma1
          else
            some (.ok (finalRes st sigma1 chisq sfac nok))


/-! ### Jacobian evaluators and state-passing translations.
The `__call__` and `model` bodies of the eight function objects contain
no assignment to `self`; state-passing translations make that frame
behaviour explicit by returning the post-call object state. -/

/-- `dmoffat` vectorized: the list (indexed by parameter) of derivative
arrays over the grid. -/
noncomputable def dmoffatArr (xy : List (ℝ × ℝ)) (sky height xcen ycen fwhm beta : ℝ)
    (skip_dfwhm : Bool) : List (List ℝ) :=
  (xy.map (fun p => dmoffat p.1 p.2 sky height xcen ycen fwhm beta skip_dfwhm)).transpose

/-- `dgaussian` vectorized. -/
noncomputable def dgaussianArr (xy : List (ℝ × ℝ)) (sky height xcen ycen fwhm : ℝ)
    (skip_dfwhm : Bool) : List (List ℝ) :=
  (xy.map (fun p => dgaussian p.1 p.2 sky height xcen ycen fwhm skip_dfwhm)).transpose

/-- State of a `Dmfit1` / `Dgfit1` object (`sigma` and `xy` shared by
reference with the paired fit object). -/
structure Dmfit1St where
  sigma : List ℝ
  xy : List (ℝ × ℝ)

/-- State of a `Dmfit2` / `Dgfit2` object. -/
structure Dmfit2St where
  sigma : List ℝ
  xy : List (ℝ × ℝ)
  fwhm : ℝ

/-- `Mfit1.__call__` with explicit state passing. -/
noncomputable def Mfit1.callS (o : Mfit1St) (sky height xcen ycen fwhm beta : ℝ) :
    List ℝ × Mfit1St :=
  (fitResid o.data (moffatArr o.xy sky height xcen ycen fwhm beta) o.sigma, o)

/-- `Mfit1.model` with explicit state passing. -/
noncomputable def Mfit1.modelS (o : Mfit1St) (sky height xcen ycen fwhm beta : ℝ) :
    List ℝ × Mfit1St :=
  (moffatArr o.xy sky height xcen ycen fwhm beta, o)

/-- `Dmfit1.__call__` with explicit state passing. -/
noncomputable def Dmfit1.callS (o : Dmfit1St) (sky height xcen ycen fwhm beta : ℝ) :
    List (List ℝ) × Dmfit1St :=
  (jacSelect (dmoffatArr o.xy sky height xcen ycen fwhm beta false) o.sigma, o)

/-- `Mfit2.__call__` with explicit state passing. -/
noncomputable def Mfit2.callS (o : Mfit2St) (sky height xcen ycen beta : ℝ) :
    List ℝ × Mfit2St :=
  (fitResid o.data (moffatArr o.xy sky height xcen ycen o.fwhm beta) o.sigma, o)

/-- `Dmfit2.__call__` with explicit state passing (skips the FWHM
derivative). -/
noncomputable def Dmfit2.callS (o : Dmfit2St) (sky height xcen ycen beta : ℝ) :
    List (List ℝ) × Dmfit2St :=
  (jacSelect (dmoffatArr o.xy sky height xcen ycen o.fwhm beta true) o.sigma, o)

/-- `Gfit1.__call__` with explicit state passing. -/
noncomputable def Gfit1.callS (o : Mfit1St) (sky height xcen ycen fwhm : ℝ) :
    List ℝ × Mfit1St :=
  (fitResid o.data (gaussianArr o.xy sky height xcen ycen fwhm) o.sigma, o)

/-- `Dgfit1.__call__` with explicit state passing. -/
noncomputable def Dgfit1.callS (o : Dmfit1St) (sky height xcen ycen fwhm : ℝ) :
    List (List ℝ) × Dmfit1St :=
  (jacSelect (dgaussianArr o.xy sky height xcen ycen fwhm false) o.sigma, o)

/-- `Mfit2.model` with explicit state passing (the fixed FWHM is read
from the object state). -/
noncomputable def Mfit2.modelS (o : Mfit2St) (sky height xcen ycen beta : ℝ) :
    List ℝ × Mfit2St :=
  (moffatArr o.xy sky height xcen ycen o.fwhm beta, o)

/-- `Gfit1.model` with explicit state passing. -/
noncomputable def Gfit1.modelS (o : Mfit1St) (sky height xcen ycen fwhm : ℝ) :
    List ℝ × Mfit1St :=
  (gaussianArr o.xy sky height xcen ycen fwhm, o)

/-- `Gfit2.__call__` with explicit state passing. -/
noncomputable def Gfit2.callS (o : Mfit2St) (sky height xcen ycen : ℝ) :
    List ℝ × Mfit2St :=
  (fitResid o.data (gaussianArr o.xy sky height xcen ycen o.fwhm) o.sigma, o)

/-- `Gfit2.model` with explicit state passing. -/
noncomputable def Gfit2.modelS (o : Mfit2St) (sky height xcen ycen : ℝ) :
    List ℝ × Mfit2St :=
  (gaussianArr o.xy sky height xcen ycen o.fwhm, o)

/-- `Dgfit2.__call__` with explicit state passing (skips the FWHM
derivative). -/
noncomputable def Dgfit2.callS (o : Dmfit2St) (sky height xcen ycen : ℝ) :
    List (List ℝ) × Dmfit2St :=
  (jacSelect (dgaussianArr o.xy sky height xcen ycen o.fwhm true) o.sigma, o)

/-- The solver failure test `ier < 1 or ier > 4`. -/
def badIer (ier : ℤ) : Prop := ier < 1 ∨ 4 < ier

/-- The Moffat Jacobian as the specification states it: sky term 1,
height term `(1+ar^2)^(-b)`, xcen/ycen terms scaled by `2ab`, FWHM term
`(2ab/fwhm)*height*r^2/(1+ar^2)^(b+1)`, and beta term
`-ln(1+ar^2)*height*(1+ar^2)^(-b)` plus the correction
`(4*ln2*2^(1/b)/b/fwhm^2)*height*r^2/(1+ar^2)^(b+1)`, where
`a = 4*(2^(1/b)-1)/fwhm^2`. -/
noncomputable def dmoffatSpec (x y height xcen ycen fwhm beta : ℝ) : List ℝ :=
  let alpha := 4 * ((2 : ℝ) ^ (1 / beta) - 1) / fwhm ^ 2
  let rsq := (x - xcen) ^ 2 + (y - ycen) ^ 2
  [1,
   (1 + alpha * rsq) ^ (-beta),
   (2 * alpha * beta) * (x - xcen) * (height / (1 + alpha * rsq) ^ (beta + 1)),
   (2 * alpha * beta) * (y - ycen) * (height / (1 + alpha * rsq) ^ (beta + 1)),
   (2 * alpha * beta / fwhm) * height * rsq / (1 + alpha * rsq) ^ (beta + 1),
   -Real.log (1 + alpha * rsq) * height * (1 + alpha * rsq) ^ (-beta)
     + (4 * Real.log 2 * (2 : ℝ) ^ (1 / beta) / beta / fwhm ^ 2) * height * rsq
        / (1 + alpha * rsq) ^ (beta + 1)]

/-! ### A concrete solver oracle on an empty window, used to evaluate the
drivers on closed inputs. -/

/-- A free-FWHM solve outcome with status 1 and unit covariance diagonal. -/
noncomputable def demoMFree : MFree :=
  { sky := 1, height := 2, x := 3, y := 4, fwhm := 5, beta := 6,
    csky := 1, cheight := 1, cx := 1, cy := 1, cfwhm := 1, cbeta := 1,
    fitimg := [], ier := 1, mesg := "" }

/-- A fixed-FWHM solve outcome with status 1. -/
noncomputable def demoMFixed : MFixed :=
  { sky := 7, height := 8, x := 9, y := 10, beta := 11,
    csky := 1, cheight := 1, cx := 1, cy := 1, cbeta := 1,
    fitimg := [], ier := 1, mesg := "" }

/-- A deterministic oracle returning the outcomes above. -/
noncomputable def demoMSolver : MSolver :=
  { free := fun _ => demoMFree, fixed := fun _ _ => demoMFixed }

/-- An oracle whose free solve fails with status 0. -/
noncomputable def demoBadMSolver : MSolver :=
  { free := fun _ => { demoMFree with ier := 0, mesg := "fail" },
    fixed := fun _ _ => demoMFixed }

/-- The result of `fitMoffat` on the empty window with `demoMSolver`,
initial FWHM 1 and floor 10 (so the free fit, FWHM 5, falls back to the
fixed solve pinned at the floor). -/
noncomputable def demoMRes : FitRes :=
  { skyf := 7, heightf := 8, xf := 9, yf := 10, fwhmf := 10, betaf := some 11,
    skyfe := 0, heightfe := 0, xfe := 0, yfe := 0, fwhmfe := -1,
    betafe := some 0, fitimg := [], sigma := [], chisq := 0,
    nok := 0, nrej := 0, npar := 5 }


/-- The pass state produced by `moffatOnePass demoMSolver 1 10 false []`:
the free FWHM 5 is at or below the floor 10, so the pass returns the
fixed solve pinned at 10 with the -1 FWHM-error sentinel. -/
noncomputable def demoMSt : PassSt :=
  { skyf := 7, heightf := 8, xf := 9, yf := 10, fwhmf := 10, betaf := some 11,
    skyfe := 1, heightfe := 1, xfe := 1, yfe := 1, fwhmfe := -1,
    betafe := some 1, fitimg := [], nsoln := 5 }

/-! ### List infrastructure -/

/-- `nok1` never exceeds the number of included entries of the full sigma
array (the zip in `nok1Of` pairs a prefix of `sigma`). -/
theorem nok1Of_le_countIncluded (data fitimg sigma : List ℝ) :
    nok1Of data fitimg sigma ≤ countIncluded sigma := by
  unfold nok1Of countIncluded
  generalize residList data fitimg sigma = l
  induction l generalizing sigma with
  | nil => simp
  | cons a l ih =>
      cases sigma with
      | nil => simp
      | cons s ss =>
          simp only [List.zip_cons_cons, List.filter_cons, decide_eq_true_eq]
          by_cases h : 0 < s
          · rw [if_pos h, if_pos h]
            simpa using Nat.succ_le_succ (ih ss)
          · rw [if_neg h, if_neg h]
            exact ih ss

/-- `countIncluded` of a rejected sigma array equals `nok` of the source;
it never exceeds the previous count. -/
theorem countIncluded_rejectList_le (resid sigma : List ℝ) (bound : ℝ) :
    countIncluded (rejectList resid sigma bound) ≤ countIncluded sigma := by
  unfold countIncluded
  induction resid generalizing sigma with
  | nil => cases sigma <;> simp [rejectList]
  | cons r rs ih =>
      cases sigma with
      | nil => simp [rejectList]
      | cons s ss =>
          by_cases h : 0 < s
          · by_cases hb : bound < |r|
            · have hhead : (if 0 < s ∧ bound < |r| then -s else s) = -s :=
                if_pos ⟨h, hb⟩
              simp only [rejectList, hhead, List.filter_cons, decide_eq_true_eq]
              rw [if_neg (by linarith : ¬ (0 : ℝ) < -s), if_pos h]
              exact le_trans (ih ss) (Nat.le_succ _)
            · have hhead : (if 0 < s ∧ bound < |r| then -s else s) = s :=
                if_neg (fun hc => hb hc.2)
              simp only [rejectList, hhead, List.filter_cons, decide_eq_true_eq]
              rw [if_pos h, if_pos h]
              simpa using Nat.succ_le_succ (ih ss)
          · have hhead : (if 0 < s ∧ bound < |r| then -s else s) = s :=
              if_neg (fun hc => h hc.1)
            simp only [rejectList, hhead, List.filter_cons, decide_eq_true_eq]
            rw [if_neg h, if_neg h]
            exact ih ss


theorem countIncluded_cons (s : ℝ) (ss : List ℝ) :
    countIncluded (s :: ss) = (if 0 < s then 1 else 0) + countIncluded ss := by
  unfold countIncluded
  rw [List.filter_cons]
  by_cases h : 0 < s
  · simp [h]; omega
  · simp [h]

theorem countIncluded_nil : countIncluded [] = 0 := rfl

theorem includedIdx_length (sigma : List ℝ) :
    (includedIdx sigma).length = countIncluded sigma := by
  unfold includedIdx countIncluded
  induction sigma with
  | nil => simp
  | cons s ss ih =>
      rw [List.length_cons, List.range_succ_eq_map, List.filter_cons,
        List.filter_cons]
      simp only [List.getD_cons_zero, decide_eq_true_eq, List.filter_map,
        Function.comp_def, List.getD_cons_succ]
      by_cases h : 0 < s
      · rw [if_pos h, if_pos h]
        simpa using ih
      · rw [if_neg h, if_neg h]
        simpa using ih

theorem filter_zip_map {α : Type} (f : ℝ → ℝ → α) (vals sigma : List ℝ)
    (h : vals.length = sigma.length) :
    ((vals.zip sigma).filter (fun p => decide (0 < p.2))).map
        (fun p => f p.1 p.2)
      = (includedIdx sigma).map (fun i => f (vals.getD i 0) (sigma.getD i 0)) := by
  unfold includedIdx
  induction vals generalizing sigma with
  | nil =>
      have hs : sigma = [] := by
        cases sigma
        · rfl
        · simp at h
      subst hs; simp
  | cons v vs ih =>
      cases sigma with
      | nil => simp at h
      | cons s ss =>
          have hlen : vs.length = ss.length := by simpa using h
          rw [List.zip_cons_cons, List.filter_cons, List.length_cons,
            List.range_succ_eq_map, List.filter_cons]
          simp only [List.getD_cons_zero, decide_eq_true_eq, List.filter_map,
            Function.comp, List.getD_cons_succ, List.map_cons, List.map_map]
          by_cases h0 : 0 < s
          · rw [if_pos h0, if_pos h0]
            simp only [List.map_cons, List.getD_cons_zero, List.map_map,
              Function.comp, List.getD_cons_succ]
            exact congrArg _ (ih ss hlen)
          · rw [if_neg h0, if_neg h0]
            simp only [List.map_map, Function.comp, List.getD_cons_succ]
            exact ih ss hlen

theorem getD_zipWith (f : ℝ → ℝ → ℝ) (a b : List ℝ) (i : ℕ)
    (ha : i < a.length) (hb : i < b.length) :
    (List.zipWith f a b).getD i 0 = f (a.getD i 0) (b.getD i 0) := by
  induction a generalizing b i with
  | nil => simp at ha
  | cons x xs ih =>
      cases b with
      | nil => simp at hb
      | cons y ys =>
          cases i with
          | zero => simp
          | succ j =>
              simp only [List.zipWith_cons_cons, List.getD_cons_succ]
              exact ih ys j (by simpa using ha) (by simpa using hb)

theorem residList_length (data fitimg sigma : List ℝ) :
    (residList data fitimg sigma).length
      = min (min data.length fitimg.length) sigma.length := by
  unfold residList
  rw [List.length_zipWith, List.length_zipWith]

theorem residList_getD (data fitimg sigma : List ℝ) (i : ℕ)
    (h1 : i < data.length) (h2 : i < fitimg.length) (h3 : i < sigma.length) :
    (residList data fitimg sigma).getD i 0
      = (data.getD i 0 - fitimg.getD i 0) / sigma.getD i 0 := by
  unfold residList
  rw [getD_zipWith _ _ _ _ (by rw [List.length_zipWith]; omega) h3,
    getD_zipWith _ _ _ _ h1 h2]

theorem rejectList_length (resid sigma : List ℝ) (bound : ℝ) :
    (rejectList resid sigma bound).length = sigma.length := by
  induction resid generalizing sigma with
  | nil => cases sigma <;> simp [rejectList]
  | cons r rs ih =>
      cases sigma with
      | nil => simp [rejectList]
      | cons s ss => simpa [rejectList] using ih ss

theorem rejectList_getD_lt (resid sigma : List ℝ) (bound : ℝ) (i : ℕ)
    (hi : i < resid.length) :
    (rejectList resid sigma bound).getD i 0
      = if 0 < sigma.getD i 0 ∧ bound < |resid.getD i 0|
        then -sigma.getD i 0 else sigma.getD i 0 := by
  induction resid generalizing sigma i with
  | nil => simp at hi
  | cons r rs ih =>
      cases sigma with
      | nil =>
          simp only [rejectList, List.getD_nil]
          rw [if_neg (by simp)]
      | cons s ss =>
          cases i with
          | zero => simp [rejectList]
          | succ j =>
              simp only [rejectList, List.getD_cons_succ]
              exact ih ss j (by simpa using hi)

theorem rejectList_getD_ge (resid sigma : List ℝ) (bound : ℝ) (i : ℕ)
    (hi : resid.length ≤ i) (d : ℝ) :
    (rejectList resid sigma bound).getD i d = sigma.getD i d := by
  induction resid generalizing sigma i with
  | nil => cases sigma <;> simp [rejectList]
  | cons r rs ih =>
      cases sigma with
      | nil => simp [rejectList]
      | cons s ss =>
          cases i with
          | zero => simp at hi
          | succ j =>
              simp only [rejectList, List.getD_cons_succ]
              exact ih ss j (by simpa using hi)

/-- Pointwise: rejection only negates entries, and only strictly positive
ones; an entry that is not positive is left unchanged. -/
theorem rejectList_getD_cases (resid sigma : List ℝ) (bound : ℝ) (i : ℕ) :
    (rejectList resid sigma bound).getD i 0 = sigma.getD i 0
    ∨ (0 < sigma.getD i 0
        ∧ (rejectList resid sigma bound).getD i 0 = -sigma.getD i 0) := by
  by_cases hi : i < resid.length
  · rw [rejectList_getD_lt resid sigma bound i hi]
    by_cases hc : 0 < sigma.getD i 0 ∧ bound < |resid.getD i 0|
    · exact Or.inr ⟨hc.1, by rw [if_pos hc]⟩
    · exact Or.inl (by rw [if_neg hc])
  · exact Or.inl (rejectList_getD_ge resid sigma bound i (by omega) 0)

theorem nok1Of_eq_countIncluded (data fitimg sigma : List ℝ)
    (h1 : data.length = sigma.length) (h2 : fitimg.length = sigma.length) :
    nok1Of data fitimg sigma = countIncluded sigma := by
  have hr : (residList data fitimg sigma).length = sigma.length := by
    rw [residList_length, h1, h2, min_self, min_self]
  unfold nok1Of
  have hmap := filter_zip_map (fun v _ => v) (residList data fitimg sigma) sigma hr
  calc (((residList data fitimg sigma).zip sigma).filter
          (fun p => decide (0 < p.2))).length
      = ((((residList data fitimg sigma).zip sigma).filter
          (fun p => decide (0 < p.2))).map (fun p => (fun v _ => v) p.1 p.2)).length := by
        rw [List.length_map]
    _ = ((includedIdx sigma).map
          (fun i => (fun v _ => v) ((residList data fitimg sigma).getD i 0)
            (sigma.getD i 0))).length := by rw [hmap]
    _ = countIncluded sigma := by rw [List.length_map, includedIdx_length]

/-- If the guard `nok < nok1` failed and the arrays share the window's
shape, no pixel was newly rejected and the sigma array is unchanged. -/
theorem rejectList_eq_self (resid sigma : List ℝ) (bound : ℝ)
    (hlen : resid.length = sigma.length)
    (hn : ¬ countIncluded (rejectList resid sigma bound) < countIncluded sigma) :
    rejectList resid sigma bound = sigma := by
  induction resid generalizing sigma with
  | nil =>
      cases sigma with
      | nil => rfl
      | cons s ss => simp at hlen
  | cons r rs ih =>
      cases sigma with
      | nil => simp at hlen
      | cons s ss =>
          have hlen' : rs.length = ss.length := by simpa using hlen
          by_cases h0 : 0 < s
          · by_cases hb : bound < |r|
            · exfalso
              apply hn
              have hhead : rejectList (r :: rs) (s :: ss) bound
                  = -s :: rejectList rs ss bound := by
                simp [rejectList, h0, hb]
              rw [hhead, countIncluded_cons, countIncluded_cons,
                if_neg (by linarith : ¬ (0 : ℝ) < -s), if_pos h0]
              have := countIncluded_rejectList_le rs ss bound
              omega
            · have hhead : rejectList (r :: rs) (s :: ss) bound
                  = s :: rejectList rs ss bound := by
                simp [rejectList, hb]
              rw [hhead]
              rw [hhead, countIncluded_cons, countIncluded_cons] at hn
              refine congrArg _ (ih ss hlen' ?_)
              omega
          · have hhead : rejectList (r :: rs) (s :: ss) bound
                = s :: rejectList rs ss bound := by
              simp [rejectList, h0]
            rw [hhead]
            rw [hhead, countIncluded_cons, countIncluded_cons] at hn
            refine congrArg _ (ih ss hlen' ?_)
            omega

/-! ### The final iteration of the rejection loop -/

/-- An `.ok` outcome of the loop is produced by its final iteration: the
pass at the returned sigma array succeeded, and the result record is that
pass state rescaled by the final scale factor. -/
theorem fitLoop_ok_last (pass : List ℝ → Except String PassSt) (data : List ℝ)
    (thresh : ℝ)
    (hW : ∀ s st, pass s = .ok st → st.fitimg.length = data.length) :
    ∀ sigma, sigma.length = data.length → ∀ r,
      fitLoop pass data thresh sigma = .ok r →
      r.sigma.length = data.length ∧
      ∃ st, pass r.sigma = .ok st ∧
        r = finalRes st r.sigma (chisqOf data st.fitimg r.sigma)
              (sfacOf data st.fitimg r.sigma st.nsoln)
              (countIncluded r.sigma) := by
  intro sigma
  induction sigma using fitLoop.induct pass data thresh with
  | case1 x e hpass =>
      intro hlen r hr
      rw [fitLoop.eq_def] at hr
      simp only [hpass] at hr
      exact Except.noConfusion hr
  | case2 x st hpass nok1 sfac sigma1 hguard ih =>
      intro hlen r hr
      rw [fitLoop.eq_def] at hr
      simp only [hpass] at hr
      have hlen1 : sigma1.length = data.length := by
        show (rejectList (residList data st.fitimg x) x (sfac * thresh)).length
          = data.length
        rw [rejectList_length]; exact hlen
      split at hr
      · exact ih hlen1 r hr
      · rename_i hno
        exact absurd hguard hno
  | case3 x st hpass nok1 sfac sigma1 hguard =>
      intro hlen r hr
      rw [fitLoop.eq_def] at hr
      simp only [hpass] at hr
      have hfit : st.fitimg.length = data.length := hW x st hpass
      have hresid : (residList data st.fitimg x).length = x.length := by
        rw [residList_length, hfit, ← hlen, min_self, min_self]
      have hn1 : nok1Of data st.fitimg x = countIncluded x :=
        nok1Of_eq_countIncluded data st.fitimg x (by omega)
          (by rw [hfit, hlen])
      have hguard2 : ¬ countIncluded (rejectList (residList data st.fitimg x) x
          (sfacOf data st.fitimg x st.nsoln * thresh))
            < nok1Of data st.fitimg x := hguard
      have hnoflip : rejectList (residList data st.fitimg x) x
          (sfacOf data st.fitimg x st.nsoln * thresh) = x := by
        apply rejectList_eq_self _ _ _ hresid
        rw [← hn1]
        exact hguard2
      split at hr
      · rename_i hyes
        exact absurd hyes hguard
      · rw [hnoflip] at hr
        have hreq := Except.ok.inj hr
        subst hreq
        refine ⟨hlen, st, hpass, rfl⟩


theorem countIncluded_le_length (sigma : List ℝ) :
    countIncluded sigma ≤ sigma.length :=
  List.length_filter_le _ _

theorem sigmaInit_length (read gain : ℝ) (data : List ℝ) :
    (sigmaInit read gain data).length = data.length := by
  simp [sigmaInit]

theorem getD_map_lt {α β : Type} (f : α → β) (l : List α) (i : ℕ)
    (hi : i < l.length) (d : α) (e : β) :
    (l.map f).getD i e = f (l.getD i d) := by
  induction l generalizing i with
  | nil => simp at hi
  | cons a as ih =>
      cases i with
      | zero => simp
      | succ j =>
          simp only [List.map_cons, List.getD_cons_succ]
          exact ih j (by simpa using hi)

/-- Throughout the loop, a sigma entry is either its starting value or
the negation of a value that was strictly positive when it was flipped. -/
theorem fitLoop_sigma_evolution (pass : List ℝ → Except String PassSt)
    (data : List ℝ) (thresh : ℝ) :
    ∀ sigma, ∀ r, fitLoop pass data thresh sigma = .ok r →
      r.sigma.length = sigma.length ∧
      ∀ i, r.sigma.getD i 0 = sigma.getD i 0
        ∨ (0 < sigma.getD i 0 ∧ r.sigma.getD i 0 = -sigma.getD i 0) := by
  intro sigma
  induction sigma using fitLoop.induct pass data thresh with
  | case1 x e hpass =>
      intro r hr
      rw [fitLoop.eq_def] at hr
      simp only [hpass] at hr
      exact Except.noConfusion hr
  | case2 x st hpass nok1 sfac sigma1 hguard ih =>
      intro r hr
      rw [fitLoop.eq_def] at hr
      simp only [hpass] at hr
      split at hr
      · obtain ⟨hl, hp⟩ := ih r hr
        have hl1 : sigma1.length = x.length := by
          show (rejectList (residList data st.fitimg x) x (sfac * thresh)).length
            = x.length
          exact rejectList_length _ _ _
        refine ⟨by rw [hl]; exact hl1, ?_⟩
        intro i
        have hstep := rejectList_getD_cases (residList data st.fitimg x) x
          (sfacOf data st.fitimg x st.nsoln * thresh) i
        have hpi : r.sigma.getD i 0
            = (rejectList (residList data st.fitimg x) x
                (sfacOf data st.fitimg x st.nsoln * thresh)).getD i 0
          ∨ (0 < (rejectList (residList data st.fitimg x) x
                (sfacOf data st.fitimg x st.nsoln * thresh)).getD i 0
              ∧ r.sigma.getD i 0
                = -(rejectList (residList data st.fitimg x) x
                    (sfacOf data st.fitimg x st.nsoln * thresh)).getD i 0) := hp i
        rcases hpi with h1 | ⟨hpos, h2⟩
        · rcases hstep with hs1 | ⟨hspos, hs2⟩
          · exact Or.inl (h1.trans hs1)
          · exact Or.inr ⟨hspos, h1.trans hs2⟩
        · rcases hstep with hs1 | ⟨hspos, hs2⟩
          · rw [hs1] at hpos h2
            exact Or.inr ⟨hpos, h2⟩
          · rw [hs2] at hpos
            exact absurd hspos (by linarith)
      · rename_i hno
        exact absurd hguard hno
  | case3 x st hpass nok1 sfac sigma1 hguard =>
      intro r hr
      rw [fitLoop.eq_def] at hr
      simp only [hpass] at hr
      split at hr
      · rename_i hyes; exact absurd hyes hguard
      · have hreq := Except.ok.inj hr
        subst hreq
        refine ⟨rejectList_length _ _ _, ?_⟩
        intro i
        exact rejectList_getD_cases (residList data st.fitimg x) x
          (sfacOf data st.fitimg x st.nsoln * thresh) i

/-- A solver failure in the current pass aborts the whole loop with that
error. -/
theorem fitLoop_error (pass : List ℝ → Except String PassSt)
    (data : List ℝ) (thresh : ℝ) (sigma : List ℝ) (e : String)
    (h : pass sigma = .error e) :
    fitLoop pass data thresh sigma = .error e := by
  rw [fitLoop.eq_def]
  simp only [h]

/-- More fuel never changes a completed run. -/
theorem fitLoopFuel_mono (pass : List ℝ → Except String PassSt)
    (data : List ℝ) (thresh : ℝ) :
    ∀ fuel fuel2 sigma v, fuel ≤ fuel2 →
      fitLoopFuel pass data thresh fuel sigma = some v →
      fitLoopFuel pass data thresh fuel2 sigma = some v := by
  intro fuel
  induction fuel with
  | zero =>
      intro fuel2 sigma v _ h
      simp [fitLoopFuel] at h
  | succ n ih =>
      intro fuel2 sigma v hle h
      cases fuel2 with
      | zero => omega
      | succ m =>
          cases hp : pass sigma with
          | error e =>
              simp only [fitLoopFuel, hp] at h ⊢
              exact h
          | ok st =>
              simp only [fitLoopFuel, hp] at h ⊢
              split at h
              · rename_i hc
                rw [if_pos hc]
                exact ih m _ v (by omega) h
              · rename_i hc
                rw [if_neg hc]
                exact h


/-- The unbounded rejection loop needs at most `countIncluded sigma + 1`
iterations. -/
theorem fitLoop_halts (pass : List ℝ → Except String PassSt)
    (data : List ℝ) (thresh : ℝ) :
    ∀ sigma, fitLoopFuel pass data thresh (countIncluded sigma + 1) sigma
      = some (fitLoop pass data thresh sigma) := by
  intro sigma
  induction sigma using fitLoop.induct pass data thresh with
  | case1 x e hpass =>
      rw [fitLoop.eq_def]
      simp only [fitLoopFuel, hpass]
  | case2 x st hpass nok1 sfac sigma1 hguard ih =>
      rw [fitLoop.eq_def]
      simp only [fitLoopFuel, hpass]
      have hc : countIncluded (rejectList (residList data st.fitimg x) x
          (sfacOf data st.fitimg x st.nsoln * thresh))
            < nok1Of data st.fitimg x := hguard
      rw [if_pos hc, dif_pos hc]
      have hbound : countIncluded (rejectList (residList data st.fitimg x) x
            (sfacOf data st.fitimg x st.nsoln * thresh)) + 1
          ≤ countIncluded x := by
        have := nok1Of_le_countIncluded data st.fitimg x
        omega
      exact fitLoopFuel_mono pass data thresh _ _ _ _ hbound ih
  | case3 x st hpass nok1 sfac sigma1 hguard =>
      rw [fitLoop.eq_def]
      simp only [fitLoopFuel, hpass]
      have hc : ¬ countIncluded (rejectList (residList data st.fitimg x) x
          (sfacOf data st.fitimg x st.nsoln * thresh))
            < nok1Of data st.fitimg x := hguard
      rw [if_neg hc, dif_neg hc]


theorem moffatOnePass_fitimg_length (S : MSolver) (fwhm fwhm_min : ℝ)
    (fwhm_fix : Bool) (n : ℕ)
    (h1 : ∀ σ, (S.free σ).fitimg.length = n)
    (h2 : ∀ fw σ, (S.fixed fw σ).fitimg.length = n) :
    ∀ σ st, moffatOnePass S fwhm fwhm_min fwhm_fix σ = .ok st →
      st.fitimg.length = n := by
  intro σ st h
  unfold moffatOnePass at h
  simp only [] at h
  split_ifs at h
  all_goals
    have hst := (Except.ok.inj h).symm
  all_goals subst hst
  all_goals simp [h1, h2]

theorem gaussianOnePass_fitimg_length (S : GSolver) (fwhm fwhm_min : ℝ)
    (fwhm_fix : Bool) (n : ℕ)
    (h1 : ∀ σ, (S.free σ).fitimg.length = n)
    (h2 : ∀ fw σ, (S.fixed fw σ).fitimg.length = n) :
    ∀ σ st, gaussianOnePass S fwhm fwhm_min fwhm_fix σ = .ok st →
      st.fitimg.length = n := by
  intro σ st h
  unfold gaussianOnePass at h
  simp only [] at h
  split_ifs at h
  all_goals
    have hst := (Except.ok.inj h).symm
  all_goals subst hst
  all_goals simp [h1, h2]

/-- Pass states carry either the -1 sentinel or a non-negative
(square-root derived) FWHM standard error. -/
theorem moffatOnePass_fwhmfe_cases (S : MSolver) (fwhm fwhm_min : ℝ)
    (fwhm_fix : Bool) (σ : List ℝ) (st : PassSt)
    (h : moffatOnePass S fwhm fwhm_min fwhm_fix σ = .ok st) :
    st.fwhmfe = -1 ∨ 0 ≤ st.fwhmfe := by
  unfold moffatOnePass at h
  simp only [] at h
  split_ifs at h
  all_goals
    have hst := (Except.ok.inj h).symm
  all_goals subst hst
  · exact Or.inl rfl
  · exact Or.inr (Real.sqrt_nonneg _)
  · exact Or.inl rfl

theorem gaussianOnePass_fwhmfe_cases (S : GSolver) (fwhm fwhm_min : ℝ)
    (fwhm_fix : Bool) (σ : List ℝ) (st : PassSt)
    (h : gaussianOnePass S fwhm fwhm_min fwhm_fix σ = .ok st) :
    st.fwhmfe = -1 ∨ 0 ≤ st.fwhmfe := by
  unfold gaussianOnePass at h
  simp only [] at h
  split_ifs at h
  all_goals
    have hst := (Except.ok.inj h).symm
  all_goals subst hst
  · exact Or.inl rfl
  · exact Or.inr (Real.sqrt_nonneg _)
  · exact Or.inl rfl


theorem finalRes_fwhmfe (st : PassSt) (s : List ℝ) (c f : ℝ) (n : ℕ) :
    (finalRes st s c f n).fwhmfe
      = if 0 < st.fwhmfe then st.fwhmfe * f else st.fwhmfe := rfl

/-- C1: two-stage FWHM strategy.  For a fit call with `fwhm_fix` false,
if the free-FWHM solve at the final sigma array returns an FWHM less than
or equal to `fwhm_min`, the free solution is discarded and the returned
result is the fixed-FWHM solve pinned at `fwhm_min`: its FWHM is exactly
`fwhm_min`, its FWHM standard error exactly -1, and the other fitted
parameters are the fixed solve's; if the free FWHM is strictly greater
than `fwhm_min`, the free solution is kept.  Stated for `fitMoffat` and
`fitGaussian`. -/
theorem claim_C1_two_stage_fwhm :
    (∀ (S : MSolver) (fwhm fwhm_min : ℝ) (data : List ℝ)
      (read gain thresh : ℝ) (r : FitRes),
      (∀ σ, (S.free σ).fitimg.length = data.length) →
      (∀ fw σ, (S.fixed fw σ).fitimg.length = data.length) →
      fitMoffat S fwhm fwhm_min false data read gain thresh = .ok r →
        (((S.free r.sigma).fwhm ≤ fwhm_min →
          r.fwhmf = fwhm_min ∧ r.fwhmfe = -1
          ∧ r.skyf = (S.fixed fwhm_min r.sigma).sky
          ∧ r.heightf = (S.fixed fwhm_min r.sigma).height
          ∧ r.xf = (S.fixed fwhm_min r.sigma).x
          ∧ r.yf = (S.fixed fwhm_min r.sigma).y
          ∧ r.betaf = some (S.fixed fwhm_min r.sigma).beta
          ∧ r.npar = 5)
        ∧ (fwhm_min < (S.free r.sigma).fwhm →
          r.fwhmf = (S.free r.sigma).fwhm
          ∧ r.skyf = (S.free r.sigma).sky
          ∧ r.heightf = (S.free r.sigma).height
          ∧ r.xf = (S.free r.sigma).x
          ∧ r.yf = (S.free r.sigma).y
          ∧ r.betaf = some (S.free r.sigma).beta
          ∧ r.npar = 6)))
    ∧ (∀ (S : GSolver) (fwhm fwhm_min : ℝ) (data : List ℝ)
      (read gain thresh : ℝ) (r : FitRes),
      (∀ σ, (S.free σ).fitimg.length = data.length) →
      (∀ fw σ, (S.fixed fw σ).fitimg.length = data.length) →
      fitGaussian S fwhm fwhm_min false data read gain thresh = .ok r →
        (((S.free r.sigma).fwhm ≤ fwhm_min →
          r.fwhmf = fwhm_min ∧ r.fwhmfe = -1
          ∧ r.skyf = (S.fixed fwhm_min r.sigma).sky
          ∧ r.heightf = (S.fixed fwhm_min r.sigma).height
          ∧ r.xf = (S.fixed fwhm_min r.sigma).x
          ∧ r.yf = (S.fixed fwhm_min r.sigma).y
          ∧ r.npar = 4)
        ∧ (fwhm_min < (S.free r.sigma).fwhm →
          r.fwhmf = (S.free r.sigma).fwhm
          ∧ r.skyf = (S.free r.sigma).sky
          ∧ r.heightf = (S.free r.sigma).height
          ∧ r.xf = (S.free r.sigma).x
          ∧ r.yf = (S.free r.sigma).y
          ∧ r.npar = 5))) := by
  constructor
  · intro S fwhm fwhm_min data read gain thresh r hW1 hW2 hok
    have hWp := moffatOnePass_fitimg_length S fwhm fwhm_min false data.length hW1 hW2
    obtain ⟨hlen, st, hpass, hres⟩ :=
      fitLoop_ok_last (moffatOnePass S fwhm fwhm_min false) data thresh hWp
        (sigmaInit read gain data) (sigmaInit_length read gain data) r hok
    unfold moffatOnePass at hpass
    simp only [Bool.false_eq_true, if_false] at hpass
    split_ifs at hpass with hier hkeep hier2
    · have hst := (Except.ok.inj hpass).symm
      subst hst
      constructor
      · intro hle
        exact absurd hkeep (not_lt.mpr hle)
      · intro _
        exact ⟨(congrArg FitRes.fwhmf hres).trans rfl,
          (congrArg FitRes.skyf hres).trans rfl,
          (congrArg FitRes.heightf hres).trans rfl,
          (congrArg FitRes.xf hres).trans rfl,
          (congrArg FitRes.yf hres).trans rfl,
          (congrArg FitRes.betaf hres).trans rfl,
          (congrArg FitRes.npar hres).trans rfl⟩
    · have hst := (Except.ok.inj hpass).symm
      subst hst
      constructor
      · intro _
        refine ⟨(congrArg FitRes.fwhmf hres).trans rfl, ?_,
          (congrArg FitRes.skyf hres).trans rfl,
          (congrArg FitRes.heightf hres).trans rfl,
          (congrArg FitRes.xf hres).trans rfl,
          (congrArg FitRes.yf hres).trans rfl,
          (congrArg FitRes.betaf hres).trans rfl,
          (congrArg FitRes.npar hres).trans rfl⟩
        refine (congrArg FitRes.fwhmfe hres).trans ?_
        rw [finalRes_fwhmfe]
        norm_num
      · intro hgt
        exact absurd hgt hkeep
  · intro S fwhm fwhm_min data read gain thresh r hW1 hW2 hok
    have hWp := gaussianOnePass_fitimg_length S fwhm fwhm_min false data.length hW1 hW2
    obtain ⟨hlen, st, hpass, hres⟩ :=
      fitLoop_ok_last (gaussianOnePass S fwhm fwhm_min false) data thresh hWp
        (sigmaInit read gain data) (sigmaInit_length read gain data) r hok
    unfold gaussianOnePass at hpass
    simp only [Bool.false_eq_true, if_false] at hpass
    split_ifs at hpass with hier hkeep hier2
    · have hst := (Except.ok.inj hpass).symm
      subst hst
      constructor
      · intro hle
        exact absurd hkeep (not_lt.mpr hle)
      · intro _
        exact ⟨(congrArg FitRes.fwhmf hres).trans rfl,
          (congrArg FitRes.skyf hres).trans rfl,
          (congrArg FitRes.heightf hres).trans rfl,
          (congrArg FitRes.xf hres).trans rfl,
          (congrArg FitRes.yf hres).trans rfl,
          (congrArg FitRes.npar hres).trans rfl⟩
    · have hst := (Except.ok.inj hpass).symm
      subst hst
      constructor
      · intro _
        refine ⟨(congrArg FitRes.fwhmf hres).trans rfl, ?_,
          (congrArg FitRes.skyf hres).trans rfl,
          (congrArg FitRes.heightf hres).trans rfl,
          (congrArg FitRes.xf hres).trans rfl,
          (congrArg FitRes.yf hres).trans rfl,
          (congrArg FitRes.npar hres).trans rfl⟩
        refine (congrArg FitRes.fwhmfe hres).trans ?_
        rw [finalRes_fwhmfe]
        norm_num
      · intro hgt
        exact absurd hgt hkeep


/-- C3: final error rescaling.  When the rejection loop terminates with a
result, every reported parameter standard error is the final pass's
covariance-derived error multiplied by the final iteration's scale
factor, except the FWHM error, which is multiplied exactly when it is not
the -1 sentinel (i.e. when the FWHM was actually estimated); the sentinel
is returned unscaled.  Stated for `fitMoffat` and `fitGaussian`. -/
theorem claim_C3_error_rescaling :
    (∀ (S : MSolver) (fwhm fwhm_min : ℝ) (fwhm_fix : Bool) (data : List ℝ)
      (read gain thresh : ℝ) (r : FitRes),
      (∀ σ, (S.free σ).fitimg.length = data.length) →
      (∀ fw σ, (S.fixed fw σ).fitimg.length = data.length) →
      fitMoffat S fwhm fwhm_min fwhm_fix data read gain thresh = .ok r →
      ∃ st, moffatOnePass S fwhm fwhm_min fwhm_fix r.sigma = .ok st
        ∧ r.skyfe = st.skyfe * sfacOf data st.fitimg r.sigma st.nsoln
        ∧ r.heightfe = st.heightfe * sfacOf data st.fitimg r.sigma st.nsoln
        ∧ r.xfe = st.xfe * sfacOf data st.fitimg r.sigma st.nsoln
        ∧ r.yfe = st.yfe * sfacOf data st.fitimg r.sigma st.nsoln
        ∧ r.betafe = st.betafe.map
            (fun e => e * sfacOf data st.fitimg r.sigma st.nsoln)
        ∧ (st.fwhmfe = -1 → r.fwhmfe = -1)
        ∧ (st.fwhmfe ≠ -1 →
            r.fwhmfe = st.fwhmfe * sfacOf data st.fitimg r.sigma st.nsoln))
    ∧ (∀ (S : GSolver) (fwhm fwhm_min : ℝ) (fwhm_fix : Bool) (data : List ℝ)
      (read gain thresh : ℝ) (r : FitRes),
      (∀ σ, (S.free σ).fitimg.length = data.length) →
      (∀ fw σ, (S.fixed fw σ).fitimg.length = data.length) →
      fitGaussian S fwhm fwhm_min fwhm_fix data read gain thresh = .ok r →
      ∃ st, gaussianOnePass S fwhm fwhm_min fwhm_fix r.sigma = .ok st
        ∧ r.skyfe = st.skyfe * sfacOf data st.fitimg r.sigma st.nsoln
        ∧ r.heightfe = st.heightfe * sfacOf data st.fitimg r.sigma st.nsoln
        ∧ r.xfe = st.xfe * sfacOf data st.fitimg r.sigma st.nsoln
        ∧ r.yfe = st.yfe * sfacOf data st.fitimg r.sigma st.nsoln
        ∧ r.betafe = st.betafe.map
            (fun e => e * sfacOf data st.fitimg r.sigma st.nsoln)
        ∧ (st.fwhmfe = -1 → r.fwhmfe = -1)
        ∧ (st.fwhmfe ≠ -1 →
            r.fwhmfe = st.fwhmfe * sfacOf data st.fitimg r.sigma st.nsoln)) := by
  constructor
  · intro S fwhm fwhm_min fwhm_fix data read gain thresh r hW1 hW2 hok
    have hWp := moffatOnePass_fitimg_length S fwhm fwhm_min fwhm_fix
      data.length hW1 hW2
    obtain ⟨hlen, st, hpass, hres⟩ :=
      fitLoop_ok_last (moffatOnePass S fwhm fwhm_min fwhm_fix) data thresh hWp
        (sigmaInit read gain data) (sigmaInit_length read gain data) r hok
    refine ⟨st, hpass,
      (congrArg FitRes.skyfe hres).trans rfl,
      (congrArg FitRes.heightfe hres).trans rfl,
      (congrArg FitRes.xfe hres).trans rfl,
      (congrArg FitRes.yfe hres).trans rfl,
      (congrArg FitRes.betafe hres).trans rfl, ?_, ?_⟩
    · intro hfe
      refine (congrArg FitRes.fwhmfe hres).trans ?_
      rw [finalRes_fwhmfe, hfe]
      norm_num
    · intro hfe
      rcases moffatOnePass_fwhmfe_cases S fwhm fwhm_min fwhm_fix r.sigma st hpass
        with hs | hs
      · exact absurd hs hfe
      · refine (congrArg FitRes.fwhmfe hres).trans ?_
        rw [finalRes_fwhmfe]
        by_cases hpos : 0 < st.fwhmfe
        · rw [if_pos hpos]
        · rw [if_neg hpos, le_antisymm (not_lt.mp hpos) hs, zero_mul]
  · intro S fwhm fwhm_min fwhm_fix data read gain thresh r hW1 hW2 hok
    have hWp := gaussianOnePass_fitimg_length S fwhm fwhm_min fwhm_fix
      data.length hW1 hW2
    obtain ⟨hlen, st, hpass, hres⟩ :=
      fitLoop_ok_last (gaussianOnePass S fwhm fwhm_min fwhm_fix) data thresh hWp
        (sigmaInit read gain data) (sigmaInit_length read gain data) r hok
    refine ⟨st, hpass,
      (congrArg FitRes.skyfe hres).trans rfl,
      (congrArg FitRes.heightfe hres).trans rfl,
      (congrArg FitRes.xfe hres).trans rfl,
      (congrArg FitRes.yfe hres).trans rfl,
      (congrArg FitRes.betafe hres).trans rfl, ?_, ?_⟩
    · intro hfe
      refine (congrArg FitRes.fwhmfe hres).trans ?_
      rw [finalRes_fwhmfe, hfe]
      norm_num
    · intro hfe
      rcases gaussianOnePass_fwhmfe_cases S fwhm fwhm_min fwhm_fix r.sigma st hpass
        with hs | hs
      · exact absurd hs hfe
      · refine (congrArg FitRes.fwhmfe hres).trans ?_
        rw [finalRes_fwhmfe]
        by_cases hpos : 0 < st.fwhmfe
        · rw [if_pos hpos]
        · rw [if_neg hpos, le_antisymm (not_lt.mp hpos) hs, zero_mul]


/-- C7: solver failure handling.  A two-stage pass raises an error if and
only if one of the solves it executes has a status code outside the
success range 1..4 (`badIer`); and a failing pass aborts the whole fit
call with that error, returning no partial result.  Stated for both
passes and both families. -/
theorem claim_C7_solver_failure :
    (∀ (S : MSolver) (fwhm fwhm_min : ℝ) (σ : List ℝ),
      (∃ e, moffatOnePass S fwhm fwhm_min true σ = .error e)
        ↔ badIer (S.fixed fwhm σ).ier)
    ∧ (∀ (S : MSolver) (fwhm fwhm_min : ℝ) (σ : List ℝ),
      (∃ e, moffatOnePass S fwhm fwhm_min false σ = .error e)
        ↔ (badIer (S.free σ).ier
          ∨ (¬ badIer (S.free σ).ier ∧ (S.free σ).fwhm ≤ fwhm_min
              ∧ badIer (S.fixed fwhm_min σ).ier)))
    ∧ (∀ (S : GSolver) (fwhm fwhm_min : ℝ) (σ : List ℝ),
      (∃ e, gaussianOnePass S fwhm fwhm_min true σ = .error e)
        ↔ badIer (S.fixed fwhm σ).ier)
    ∧ (∀ (S : GSolver) (fwhm fwhm_min : ℝ) (σ : List ℝ),
      (∃ e, gaussianOnePass S fwhm fwhm_min false σ = .error e)
        ↔ (badIer (S.free σ).ier
          ∨ (¬ badIer (S.free σ).ier ∧ (S.free σ).fwhm ≤ fwhm_min
              ∧ badIer (S.fixed fwhm_min σ).ier)))
    ∧ (∀ (pass : List ℝ → Except String PassSt) (data : List ℝ)
        (thresh : ℝ) (σ : List ℝ) (e : String),
      pass σ = .error e → fitLoop pass data thresh σ = .error e) := by
  refine ⟨?_, ?_, ?_, ?_, fitLoop_error⟩
  · intro S fwhm fwhm_min σ
    unfold moffatOnePass
    simp only []
    split_ifs with h1 h2
    · simp [badIer, h2]
    · simp [badIer, h2]
    · exact absurd trivial h1
    · exact absurd trivial h1
  · intro S fwhm fwhm_min σ
    unfold moffatOnePass
    simp only [Bool.false_eq_true, if_false]
    split_ifs with hb1 hb2 hb3
    · simp [badIer, hb1]
    · have hnle : ¬ (S.free σ).fwhm ≤ fwhm_min := not_le.mpr hb2
      simp [badIer, hb1, hnle]
    · simp [badIer, hb1, hb3, not_lt.mp hb2]
    · simp [badIer, hb1, hb3, not_lt.mp hb2]
  · intro S fwhm fwhm_min σ
    unfold gaussianOnePass
    simp only []
    split_ifs with h1 h2
    · simp [badIer, h2]
    · simp [badIer, h2]
    · exact absurd trivial h1
    · exact absurd trivial h1
  · intro S fwhm fwhm_min σ
    unfold gaussianOnePass
    simp only [Bool.false_eq_true, if_false]
    split_ifs with hb1 hb2 hb3
    · simp [badIer, hb1]
    · have hnle : ¬ (S.free σ).fwhm ≤ fwhm_min := not_le.mpr hb2
      simp [badIer, hb1, hnle]
    · simp [badIer, hb1, hb3, not_lt.mp hb2]
    · simp [badIer, hb1, hb3, not_lt.mp hb2]


/-- C8: termination of the rejection loop.  Although the source loop is
`while True` with no iteration cap, for every input it completes within
`sigma.length + 1` iterations — the loop continues only when the count of
included pixels strictly decreased, and that count is a natural number
bounded by the window size.  `fitLoopFuel` is the loop with an explicit
iteration budget (`none` = budget exhausted); within the stated budget it
agrees with the unbounded loop.  Moreover the loop exits within the
current iteration exactly when that iteration rejects no new pixel. -/
theorem claim_C8_termination :
    (∀ (pass : List ℝ → Except String PassSt) (data : List ℝ)
        (thresh : ℝ) (sigma : List ℝ),
      ∃ k, k ≤ sigma.length + 1
        ∧ fitLoopFuel pass data thresh k sigma
            = some (fitLoop pass data thresh sigma))
    ∧ (∀ (pass : List ℝ → Except String PassSt) (data : List ℝ)
        (thresh : ℝ) (sigma : List ℝ) (st : PassSt),
      pass sigma = .ok st →
      ((fitLoopFuel pass data thresh 1 sigma).isSome ↔
        ¬ countIncluded (rejectList (residList data st.fitimg sigma) sigma
            (sfacOf data st.fitimg sigma st.nsoln * thresh))
          < nok1Of data st.fitimg sigma)) := by
  constructor
  · intro pass data thresh sigma
    refine ⟨countIncluded sigma + 1, ?_, fitLoop_halts pass data thresh sigma⟩
    have := countIncluded_le_length sigma
    omega
  · intro pass data thresh sigma st hpass
    simp only [fitLoopFuel, hpass]
    by_cases hc : countIncluded (rejectList (residList data st.fitimg sigma) sigma
        (sfacOf data st.fitimg sigma st.nsoln * thresh))
          < nok1Of data st.fitimg sigma
    · rw [if_pos hc]
      simp [fitLoopFuel, hc]
    · rw [if_neg hc]
      simp [hc]


theorem chisqOf_eq (data fitimg sigma : List ℝ)
    (h1 : data.length = sigma.length) (h2 : fitimg.length = sigma.length) :
    chisqOf data fitimg sigma
      = ((includedIdx sigma).map
          (fun i => ((data.getD i 0 - fitimg.getD i 0) / sigma.getD i 0) ^ 2)).sum := by
  have hr : (residList data fitimg sigma).length = sigma.length := by
    rw [residList_length, h1, h2, min_self, min_self]
  have hmap := filter_zip_map (fun v _ => v ^ 2) (residList data fitimg sigma) sigma hr
  unfold chisqOf
  rw [show (((residList data fitimg sigma).zip sigma).filter
        (fun p => decide (0 < p.2))).map (fun p => p.1 ^ 2)
      = ((includedIdx sigma).map
          (fun i => ((residList data fitimg sigma).getD i 0) ^ 2)) from hmap]
  refine congrArg List.sum ?_
  apply List.map_congr_left
  intro i hi
  have hilt : i < sigma.length := by
    unfold includedIdx at hi
    exact List.mem_range.mp (List.mem_filter.mp hi).1
  rw [residList_getD data fitimg sigma i (by omega) (by omega) hilt]

/-- C2: rejection rule.  In an iteration of the rejection loop the scale
factor is `sqrt(chisq / (n_included - n_params))` with `chisq` summed over
ALL currently-included pixels; a pixel is newly rejected (its entry
negated) exactly when it is currently included and its normalised
residual strictly exceeds `scale_factor * thresh`; a pixel whose residual
equals the bound exactly is kept. -/
theorem claim_C2_rejection_rule (data fitimg sigma : List ℝ) (nsoln : ℕ)
    (thresh : ℝ)
    (h1 : data.length = sigma.length) (h2 : fitimg.length = sigma.length) :
    sfacOf data fitimg sigma nsoln
      = Real.sqrt
          ((((includedIdx sigma).map
              (fun i => ((data.getD i 0 - fitimg.getD i 0) / sigma.getD i 0) ^ 2)).sum)
            / ((countIncluded sigma : ℝ) - (nsoln : ℝ)))
    ∧ (∀ i, i < sigma.length →
        (rejectList (residList data fitimg sigma) sigma
            (sfacOf data fitimg sigma nsoln * thresh)).getD i 0
          = if 0 < sigma.getD i 0
                ∧ sfacOf data fitimg sigma nsoln * thresh
                  < |(data.getD i 0 - fitimg.getD i 0) / sigma.getD i 0|
            then -sigma.getD i 0 else sigma.getD i 0)
    ∧ (∀ i, i < sigma.length →
        ((rejectList (residList data fitimg sigma) sigma
            (sfacOf data fitimg sigma nsoln * thresh)).getD i 0 ≠ sigma.getD i 0
          ↔ 0 < sigma.getD i 0
            ∧ sfacOf data fitimg sigma nsoln * thresh
              < |(data.getD i 0 - fitimg.getD i 0) / sigma.getD i 0|))
    ∧ (∀ i, i < sigma.length → 0 < sigma.getD i 0 →
        |(data.getD i 0 - fitimg.getD i 0) / sigma.getD i 0|
            = sfacOf data fitimg sigma nsoln * thresh →
        (rejectList (residList data fitimg sigma) sigma
            (sfacOf data fitimg sigma nsoln * thresh)).getD i 0
          = sigma.getD i 0) := by
  have hreslen : (residList data fitimg sigma).length = sigma.length := by
    rw [residList_length, h1, h2, min_self, min_self]
  have hresget : ∀ i, i < sigma.length →
      (residList data fitimg sigma).getD i 0
        = (data.getD i 0 - fitimg.getD i 0) / sigma.getD i 0 := by
    intro i hi
    exact residList_getD data fitimg sigma i (by omega) (by omega) hi
  refine ⟨?_, ?_, ?_, ?_⟩
  · unfold sfacOf
    rw [chisqOf_eq data fitimg sigma h1 h2,
      nok1Of_eq_countIncluded data fitimg sigma h1 h2]
  · intro i hi
    rw [rejectList_getD_lt _ _ _ i (by omega), hresget i hi]
  · intro i hi
    rw [rejectList_getD_lt _ _ _ i (by omega), hresget i hi]
    constructor
    · intro hne
      by_contra hc
      rw [if_neg hc] at hne
      exact hne rfl
    · intro hc
      rw [if_pos hc]
      intro heq
      have h0 := hc.1
      linarith
  · intro i hi hpos heq
    rw [rejectList_getD_lt _ _ _ i (by omega), hresget i hi, heq]
    rw [if_neg (by intro hc; exact lt_irrefl _ hc.2)]

/-- C10: sigma-map invariant.  Rejection only flips the sign of entries
(magnitudes are preserved), only strictly-positive (included) entries are
ever negated, and a non-positive (already rejected) entry is never
changed — so a once-rejected pixel is never re-included; consequently,
over a whole fit call, every final sigma entry is the initial entry or
its negation, with unchanged magnitude. -/
theorem claim_C10_sigma_invariant :
    (∀ (resid sigma : List ℝ) (bound : ℝ) (i : ℕ),
      |(rejectList resid sigma bound).getD i 0| = |sigma.getD i 0|
      ∧ (sigma.getD i 0 ≤ 0 →
          (rejectList resid sigma bound).getD i 0 = sigma.getD i 0)
      ∧ ((rejectList resid sigma bound).getD i 0 ≠ sigma.getD i 0 →
          0 < sigma.getD i 0
          ∧ (rejectList resid sigma bound).getD i 0 = -sigma.getD i 0))
    ∧ (∀ (pass : List ℝ → Except String PassSt) (data : List ℝ)
        (thresh : ℝ) (sigma : List ℝ) (r : FitRes),
      fitLoop pass data thresh sigma = .ok r →
      r.sigma.length = sigma.length
      ∧ ∀ i, |r.sigma.getD i 0| = |sigma.getD i 0|
        ∧ (sigma.getD i 0 ≤ 0 → r.sigma.getD i 0 = sigma.getD i 0)
        ∧ (r.sigma.getD i 0 = sigma.getD i 0
            ∨ r.sigma.getD i 0 = -sigma.getD i 0)) := by
  constructor
  · intro resid sigma bound i
    rcases rejectList_getD_cases resid sigma bound i with h | ⟨hpos, h⟩
    · exact ⟨by rw [h], fun _ => h, fun hne => absurd h hne⟩
    · exact ⟨by rw [h, abs_neg],
        fun hle => absurd hpos (not_lt.mpr hle), fun _ => ⟨hpos, h⟩⟩
  · intro pass data thresh sigma r hok
    obtain ⟨hl, hp⟩ := fitLoop_sigma_evolution pass data thresh sigma r hok
    refine ⟨hl, ?_⟩
    intro i
    rcases hp i with h | ⟨hpos, h⟩
    · exact ⟨by rw [h], fun _ => h, Or.inl h⟩
    · exact ⟨by rw [h, abs_neg],
        fun hle => absurd hpos (not_lt.mpr hle), Or.inr h⟩


/-- C4: residual vector.  For every parameter vector and sigma state, the
residual callable returns exactly the values `(data - model)/sigma` at
the pixels with `sigma > 0`, rejected pixels being dropped from the
vector rather than zero-filled, so its length is the number of included
pixels; and each of the four residual objects' `__call__` is this
selection applied to its own model. -/
theorem claim_C4_residual_vector (data mod sigma : List ℝ)
    (h1 : data.length = sigma.length) (h2 : mod.length = sigma.length) :
    fitResid data mod sigma
      = (includedIdx sigma).map
          (fun i => (data.getD i 0 - mod.getD i 0) / sigma.getD i 0)
    ∧ (fitResid data mod sigma).length = countIncluded sigma
    ∧ (∀ (o : Mfit1St) (sky height xcen ycen fwhm beta : ℝ),
        Mfit1.call o sky height xcen ycen fwhm beta
          = fitResid o.data (moffatArr o.xy sky height xcen ycen fwhm beta) o.sigma)
    ∧ (∀ (o : Mfit2St) (sky height xcen ycen beta : ℝ),
        Mfit2.call o sky height xcen ycen beta
          = fitResid o.data (moffatArr o.xy sky height xcen ycen o.fwhm beta) o.sigma)
    ∧ (∀ (o : Mfit1St) (sky height xcen ycen fwhm : ℝ),
        Gfit1.call o sky height xcen ycen fwhm
          = fitResid o.data (gaussianArr o.xy sky height xcen ycen fwhm) o.sigma)
    ∧ (∀ (o : Mfit2St) (sky height xcen ycen : ℝ),
        Gfit2.call o sky height xcen ycen
          = fitResid o.data (gaussianArr o.xy sky height xcen ycen o.fwhm) o.sigma) := by
  have hr : (residList data mod sigma).length = sigma.length := by
    rw [residList_length, h1, h2, min_self, min_self]
  have hmap := filter_zip_map (fun v _ => v) (residList data mod sigma) sigma hr
  have hstep : (includedIdx sigma).map
      (fun i => (residList data mod sigma).getD i 0)
    = (includedIdx sigma).map
        (fun i => (data.getD i 0 - mod.getD i 0) / sigma.getD i 0) := by
    apply List.map_congr_left
    intro i hi
    unfold includedIdx at hi
    have hilt : i < sigma.length := List.mem_range.mp (List.mem_filter.mp hi).1
    rw [residList_getD data mod sigma i (by omega) (by omega) hilt]
  have hfirst : fitResid data mod sigma
      = (includedIdx sigma).map
          (fun i => (data.getD i 0 - mod.getD i 0) / sigma.getD i 0) :=
    hmap.trans hstep
  refine ⟨hfirst, ?_, fun _ _ _ _ _ _ _ => rfl, fun _ _ _ _ _ _ => rfl,
    fun _ _ _ _ _ _ => rfl, fun _ _ _ _ _ => rfl⟩
  rw [hfirst, List.length_map, includedIdx_length]

/-- C6: noise model.  At construction, the sigma array has one entry per
pixel equal to `sqrt(read^2 + max(0, data)/gain)`; for positive gain the
radicand is non-negative (negative counts are clamped before the
division), and the constructed entry is non-negative. -/
theorem claim_C6_noise_model (read gain : ℝ) (data : List ℝ) (hg : 0 < gain)
    (i : ℕ) (hi : i < data.length) :
    (sigmaInit read gain data).length = data.length
    ∧ (sigmaInit read gain data).getD i 0
        = Real.sqrt (read ^ 2 + max 0 (data.getD i 0) / gain)
    ∧ 0 ≤ read ^ 2 + max 0 (data.getD i 0) / gain
    ∧ 0 ≤ (sigmaInit read gain data).getD i 0 := by
  have hget : (sigmaInit read gain data).getD i 0
      = Real.sqrt (read ^ 2 + max 0 (data.getD i 0) / gain) := by
    unfold sigmaInit
    exact getD_map_lt _ data i hi 0 0
  refine ⟨sigmaInit_length read gain data, hget, ?_, ?_⟩
  · have ha : (0:ℝ) ≤ read ^ 2 := sq_nonneg read
    have hb : (0:ℝ) ≤ max 0 (data.getD i 0) / gain :=
      div_nonneg (le_max_left 0 _) hg.le
    linarith
  · rw [hget]
    exact Real.sqrt_nonneg _

/-- C9: frame property.  The residual, Jacobian and model evaluators of
all eight function objects (`Mfit1`, `Dmfit1`, `Mfit2`, `Dmfit2`,
`Gfit1`, `Dgfit1`, `Gfit2`, `Dgfit2`), translated with explicit state
passing, return the object state (the shared sigma array together with
the data and coordinate arrays) unchanged for every parameter vector;
the value component of each residual call is the pure selection used by
the driver.  Only the driver's rejection step (`rejectList`) produces
new sigma values. -/
theorem claim_C9_evaluators_pure :
    (∀ (o : Mfit1St) (sky height xcen ycen fwhm beta : ℝ),
      (Mfit1.callS o sky height xcen ycen fwhm beta).2 = o
      ∧ (Mfit1.modelS o sky height xcen ycen fwhm beta).2 = o)
    ∧ (∀ (o : Dmfit1St) (sky height xcen ycen fwhm beta : ℝ),
      (Dmfit1.callS o sky height xcen ycen fwhm beta).2 = o)
    ∧ (∀ (o : Mfit2St) (sky height xcen ycen beta : ℝ),
      (Mfit2.callS o sky height xcen ycen beta).2 = o
      ∧ (Mfit2.modelS o sky height xcen ycen beta).2 = o)
    ∧ (∀ (o : Dmfit2St) (sky height xcen ycen beta : ℝ),
      (Dmfit2.callS o sky height xcen ycen beta).2 = o)
    ∧ (∀ (o : Mfit1St) (sky height xcen ycen fwhm : ℝ),
      (Gfit1.callS o sky height xcen ycen fwhm).2 = o
      ∧ (Gfit1.modelS o sky height xcen ycen fwhm).2 = o)
    ∧ (∀ (o : Dmfit1St) (sky height xcen ycen fwhm : ℝ),
      (Dgfit1.callS o sky height xcen ycen fwhm).2 = o)
    ∧ (∀ (o : Mfit2St) (sky height xcen ycen : ℝ),
      (Gfit2.callS o sky height xcen ycen).2 = o
      ∧ (Gfit2.modelS o sky height xcen ycen).2 = o)
    ∧ (∀ (o : Dmfit2St) (sky height xcen ycen : ℝ),
      (Dgfit2.callS o sky height xcen ycen).2 = o)
    ∧ (∀ (o : Mfit1St) (sky height xcen ycen fwhm beta : ℝ),
      (Mfit1.callS o sky height xcen ycen fwhm beta).1
        = Mfit1.call o sky height xcen ycen fwhm beta)
    ∧ (∀ (o : Mfit2St) (sky height xcen ycen beta : ℝ),
      (Mfit2.callS o sky height xcen ycen beta).1
        = Mfit2.call o sky height xcen ycen beta)
    ∧ (∀ (o : Mfit1St) (sky height xcen ycen fwhm : ℝ),
      (Gfit1.callS o sky height xcen ycen fwhm).1
        = Gfit1.call o sky height xcen ycen fwhm)
    ∧ (∀ (o : Mfit2St) (sky height xcen ycen : ℝ),
      (Gfit2.callS o sky height xcen ycen).1
        = Gfit2.call o sky height xcen ycen) :=
  ⟨fun _ _ _ _ _ _ _ => ⟨rfl, rfl⟩, fun _ _ _ _ _ _ _ => rfl,
   fun _ _ _ _ _ _ => ⟨rfl, rfl⟩, fun _ _ _ _ _ _ => rfl,
   fun _ _ _ _ _ _ => ⟨rfl, rfl⟩, fun _ _ _ _ _ _ => rfl,
   fun _ _ _ _ _ => ⟨rfl, rfl⟩, fun _ _ _ _ _ => rfl,
   fun _ _ _ _ _ _ _ => rfl, fun _ _ _ _ _ _ => rfl,
   fun _ _ _ _ _ _ => rfl, fun _ _ _ _ _ => rfl⟩

/-- C5: Moffat analytic Jacobian.  With beta at or above the 0.01 clamp,
the computed partial derivatives equal the specification's formulas —
xcen/ycen terms scaled by `2*alpha*beta`, the FWHM term
`(2*alpha*beta/fwhm)*height*r^2/(1+alpha*r^2)^(beta+1)` (omitted in skip
mode, which returns one fewer array), and the beta term
`-ln(1+alpha*r^2)*height*(1+alpha*r^2)^(-beta)` plus the correction
`(4*ln2*2^(1/beta)/beta/fwhm^2)*height*r^2/(1+alpha*r^2)^(beta+1)`,
where `alpha = 4*(2^(1/beta)-1)/fwhm^2`. -/
theorem claim_C5_moffat_jacobian (x y sky height xcen ycen fwhm beta : ℝ)
    (hb : 0.01 ≤ beta) :
    dmoffat x y sky height xcen ycen fwhm beta false
        = dmoffatSpec x y height xcen ycen fwhm beta
    ∧ dmoffat x y sky height xcen ycen fwhm beta true
        = (dmoffatSpec x y height xcen ycen fwhm beta).eraseIdx 4
    ∧ (dmoffat x y sky height xcen ycen fwhm beta true).length + 1
        = (dmoffat x y sky height xcen ycen fwhm beta false).length := by
  have hbl : max 0.01 beta = beta := max_eq_right hb
  have hbpos : (0:ℝ) < beta := lt_of_lt_of_le (by norm_num) hb
  have h2 : (1:ℝ) ≤ (2:ℝ) ^ (1 / beta) := by
    calc (1:ℝ) = (2:ℝ) ^ (0:ℝ) := (Real.rpow_zero 2).symm
    _ ≤ (2:ℝ) ^ (1 / beta) := by
        exact (Real.rpow_le_rpow_left_iff (by norm_num : (1:ℝ) < 2)).mpr
          (div_nonneg zero_le_one hbpos.le)
  have halpha : 0 ≤ 4 * ((2:ℝ) ^ (1 / beta) - 1) / fwhm ^ 2 :=
    div_nonneg (by linarith) (sq_nonneg fwhm)
  have hdenom : (0:ℝ) < 1 + 4 * ((2:ℝ) ^ (1 / beta) - 1) / fwhm ^ 2
      * ((x - xcen) ^ 2 + (y - ycen) ^ 2) := by
    have hm : 0 ≤ 4 * ((2:ℝ) ^ (1 / beta) - 1) / fwhm ^ 2
        * ((x - xcen) ^ 2 + (y - ycen) ^ 2) :=
      mul_nonneg halpha (by positivity)
    linarith
  have hneg : (1 + 4 * ((2:ℝ) ^ (1 / beta) - 1) / fwhm ^ 2
        * ((x - xcen) ^ 2 + (y - ycen) ^ 2)) ^ (-beta)
      = 1 / (1 + 4 * ((2:ℝ) ^ (1 / beta) - 1) / fwhm ^ 2
        * ((x - xcen) ^ 2 + (y - ycen) ^ 2)) ^ beta := by
    rw [Real.rpow_neg hdenom.le]
    exact (one_div _).symm
  refine ⟨?_, ?_, ?_⟩
  · unfold dmoffat dmoffatSpec
    rw [if_neg (by simp : ¬ (false = true))]
    simp only [hbl, hneg, List.cons.injEq, and_true, true_and]
    constructor
    · ring
    · ring
  · unfold dmoffat dmoffatSpec
    rw [if_pos rfl]
    simp only [hbl, hneg, List.eraseIdx, List.cons.injEq, and_true, true_and]
    ring
  · unfold dmoffat
    rw [if_pos rfl, if_neg (by simp : ¬ (false = true))]
    simp


theorem demo_pass_eval :
    moffatOnePass demoMSolver 1 10 false [] = .ok demoMSt := by
  unfold moffatOnePass demoMSolver demoMFixed demoMFree demoMSt
  norm_num [Real.sqrt_one]

theorem demo_fitLoop_eval :
    fitLoop (moffatOnePass demoMSolver 1 10 false) [] 4 [] = .ok demoMRes := by
  have e4 : nok1Of ([] : List ℝ) [] [] = 0 := rfl
  have e5 : chisqOf ([] : List ℝ) [] [] = 0 := rfl
  have hrej : ∀ b, rejectList (residList ([] : List ℝ) [] []) [] b = [] :=
    fun _ => rfl
  have hcnil : countIncluded ([] : List ℝ) = 0 := rfl
  have hsfac : sfacOf ([] : List ℝ) [] [] 5 = 0 := by
    unfold sfacOf
    rw [e5, e4]
    norm_num
  have hc : ¬ countIncluded (rejectList (residList ([] : List ℝ) [] []) []
      (sfacOf ([] : List ℝ) [] [] 5 * 4)) < nok1Of ([] : List ℝ) [] [] := by
    rw [hrej, hcnil, e4]
    omega
  rw [fitLoop.eq_def]
  simp only [demo_pass_eval, demoMSt]
  rw [dif_neg hc]
  norm_num [finalRes, demoMRes, hsfac, e5, hrej, hcnil]

theorem demo_fitMoffat_eval :
    fitMoffat demoMSolver 1 10 false [] 1 1 4 = .ok demoMRes := by
  unfold fitMoffat
  rw [show sigmaInit 1 1 ([] : List ℝ) = [] from rfl]
  exact demo_fitLoop_eval

theorem demoBad_pass_eval :
    moffatOnePass demoBadMSolver 1 0 false [] = .error "fail" := by
  unfold moffatOnePass demoBadMSolver demoMFree
  norm_num


theorem claim_C1_witness :
    fitMoffat demoMSolver 1 10 false [] 1 1 4 = .ok demoMRes
    ∧ (((demoMSolver.free demoMRes.sigma).fwhm ≤ 10 →
        demoMRes.fwhmf = 10 ∧ demoMRes.fwhmfe = -1
        ∧ demoMRes.skyf = (demoMSolver.fixed 10 demoMRes.sigma).sky
        ∧ demoMRes.heightf = (demoMSolver.fixed 10 demoMRes.sigma).height
        ∧ demoMRes.xf = (demoMSolver.fixed 10 demoMRes.sigma).x
        ∧ demoMRes.yf = (demoMSolver.fixed 10 demoMRes.sigma).y
        ∧ demoMRes.betaf = some (demoMSolver.fixed 10 demoMRes.sigma).beta
        ∧ demoMRes.npar = 5)
      ∧ (10 < (demoMSolver.free demoMRes.sigma).fwhm →
        demoMRes.fwhmf = (demoMSolver.free demoMRes.sigma).fwhm
        ∧ demoMRes.skyf = (demoMSolver.free demoMRes.sigma).sky
        ∧ demoMRes.heightf = (demoMSolver.free demoMRes.sigma).height
        ∧ demoMRes.xf = (demoMSolver.free demoMRes.sigma).x
        ∧ demoMRes.yf = (demoMSolver.free demoMRes.sigma).y
        ∧ demoMRes.betaf = some (demoMSolver.free demoMRes.sigma).beta
        ∧ demoMRes.npar = 6)) :=
  ⟨demo_fitMoffat_eval,
   claim_C1_two_stage_fwhm.1 demoMSolver 1 10 [] 1 1 4 demoMRes
     (fun _ => rfl) (fun _ _ => rfl) demo_fitMoffat_eval⟩

theorem claim_C2_witness :
    ([(2:ℝ)].length = [(1:ℝ)].length)
    ∧ ([(0:ℝ)].length = [(1:ℝ)].length)
    ∧ ((0:ℕ) < [(1:ℝ)].length)
    ∧ (rejectList (residList [2] [0] [1]) [1] (sfacOf [2] [0] [1] 0 * 1)).getD 0 0
        = if 0 < ([(1:ℝ)]).getD 0 0
              ∧ sfacOf [2] [0] [1] 0 * 1
                < |(([(2:ℝ)]).getD 0 0 - ([(0:ℝ)]).getD 0 0) / ([(1:ℝ)]).getD 0 0|
          then -([(1:ℝ)]).getD 0 0 else ([(1:ℝ)]).getD 0 0 :=
  ⟨rfl, rfl, by norm_num,
   (claim_C2_rejection_rule [2] [0] [1] 0 1 rfl rfl).2.1 0 (by norm_num)⟩

theorem claim_C3_witness :
    fitMoffat demoMSolver 1 10 false [] 1 1 4 = .ok demoMRes
    ∧ ∃ st, moffatOnePass demoMSolver 1 10 false demoMRes.sigma = .ok st
        ∧ demoMRes.skyfe = st.skyfe * sfacOf [] st.fitimg demoMRes.sigma st.nsoln
        ∧ demoMRes.heightfe
            = st.heightfe * sfacOf [] st.fitimg demoMRes.sigma st.nsoln
        ∧ demoMRes.xfe = st.xfe * sfacOf [] st.fitimg demoMRes.sigma st.nsoln
        ∧ demoMRes.yfe = st.yfe * sfacOf [] st.fitimg demoMRes.sigma st.nsoln
        ∧ demoMRes.betafe = st.betafe.map
            (fun e => e * sfacOf [] st.fitimg demoMRes.sigma st.nsoln)
        ∧ (st.fwhmfe = -1 → demoMRes.fwhmfe = -1)
        ∧ (st.fwhmfe ≠ -1 →
            demoMRes.fwhmfe
              = st.fwhmfe * sfacOf [] st.fitimg demoMRes.sigma st.nsoln) :=
  ⟨demo_fitMoffat_eval,
   claim_C3_error_rescaling.1 demoMSolver 1 10 false [] 1 1 4 demoMRes
     (fun _ => rfl) (fun _ _ => rfl) demo_fitMoffat_eval⟩

theorem claim_C4_witness :
    ([(5:ℝ), 6].length = [(1:ℝ), -1].length)
    ∧ ([(1:ℝ), 2].length = [(1:ℝ), -1].length)
    ∧ (fitResid [5, 6] [1, 2] [1, -1]
        = (includedIdx [(1:ℝ), -1]).map
            (fun i => ([(5:ℝ), 6].getD i 0 - [(1:ℝ), 2].getD i 0)
              / [(1:ℝ), -1].getD i 0)
      ∧ (fitResid [5, 6] [1, 2] [1, -1]).length = countIncluded [(1:ℝ), -1]
      ∧ (∀ (o : Mfit1St) (sky height xcen ycen fwhm beta : ℝ),
          Mfit1.call o sky height xcen ycen fwhm beta
            = fitResid o.data (moffatArr o.xy sky height xcen ycen fwhm beta) o.sigma)
      ∧ (∀ (o : Mfit2St) (sky height xcen ycen beta : ℝ),
          Mfit2.call o sky height xcen ycen beta
            = fitResid o.data (moffatArr o.xy sky height xcen ycen o.fwhm beta) o.sigma)
      ∧ (∀ (o : Mfit1St) (sky height xcen ycen fwhm : ℝ),
          Gfit1.call o sky height xcen ycen fwhm
            = fitResid o.data (gaussianArr o.xy sky height xcen ycen fwhm) o.sigma)
      ∧ (∀ (o : Mfit2St) (sky height xcen ycen : ℝ),
          Gfit2.call o sky height xcen ycen
            = fitResid o.data (gaussianArr o.xy sky height xcen ycen o.fwhm) o.sigma)) :=
  ⟨rfl, rfl, claim_C4_residual_vector [5, 6] [1, 2] [1, -1] rfl rfl⟩

theorem claim_C5_witness :
    ((0.01 : ℝ) ≤ 1)
    ∧ (dmoffat 0 0 0 1 0 0 2 1 false = dmoffatSpec 0 0 1 0 0 2 1
      ∧ dmoffat 0 0 0 1 0 0 2 1 true = (dmoffatSpec 0 0 1 0 0 2 1).eraseIdx 4
      ∧ (dmoffat 0 0 0 1 0 0 2 1 true).length + 1
          = (dmoffat 0 0 0 1 0 0 2 1 false).length) :=
  ⟨by norm_num, claim_C5_moffat_jacobian 0 0 0 1 0 0 2 1 (by norm_num)⟩

theorem claim_C6_witness :
    ((0:ℝ) < 1) ∧ ((0:ℕ) < [(-2:ℝ), 3].length)
    ∧ ((sigmaInit 1 1 [-2, 3]).length = [(-2:ℝ), 3].length
      ∧ (sigmaInit 1 1 [-2, 3]).getD 0 0
          = Real.sqrt (1 ^ 2 + max 0 ([(-2:ℝ), 3].getD 0 0) / 1)
      ∧ 0 ≤ (1:ℝ) ^ 2 + max 0 ([(-2:ℝ), 3].getD 0 0) / 1
      ∧ 0 ≤ (sigmaInit 1 1 [-2, 3]).getD 0 0) :=
  ⟨by norm_num, by norm_num,
   claim_C6_noise_model 1 1 [-2, 3] (by norm_num) 0 (by norm_num)⟩

theorem claim_C7_witness :
    moffatOnePass demoBadMSolver 1 0 false [] = .error "fail"
    ∧ fitLoop (moffatOnePass demoBadMSolver 1 0 false) [] 4 [] = .error "fail" :=
  ⟨demoBad_pass_eval,
   claim_C7_solver_failure.2.2.2.2 (moffatOnePass demoBadMSolver 1 0 false)
     [] 4 [] "fail" demoBad_pass_eval⟩

theorem claim_C8_witness :
    moffatOnePass demoMSolver 1 10 false [] = .ok demoMSt
    ∧ ((fitLoopFuel (moffatOnePass demoMSolver 1 10 false) [] 4 1 []).isSome ↔
        ¬ countIncluded (rejectList (residList [] demoMSt.fitimg []) []
            (sfacOf [] demoMSt.fitimg [] demoMSt.nsoln * 4))
          < nok1Of [] demoMSt.fitimg []) :=
  ⟨demo_pass_eval,
   claim_C8_termination.2 (moffatOnePass demoMSolver 1 10 false) [] 4 []
     demoMSt demo_pass_eval⟩

theorem claim_C10_witness :
    fitLoop (moffatOnePass demoMSolver 1 10 false) [] 4 [] = .ok demoMRes
    ∧ (demoMRes.sigma.length = ([] : List ℝ).length
      ∧ ∀ i, |demoMRes.sigma.getD i 0| = |([] : List ℝ).getD i 0|
        ∧ (([] : List ℝ).getD i 0 ≤ 0 →
            demoMRes.sigma.getD i 0 = ([] : List ℝ).getD i 0)
        ∧ (demoMRes.sigma.getD i 0 = ([] : List ℝ).getD i 0
            ∨ demoMRes.sigma.getD i 0 = -([] : List ℝ).getD i 0)) :=
  ⟨demo_fitLoop_eval,
   claim_C10_sigma_invariant.2 (moffatOnePass demoMSolver 1 10 false) [] 4 []
     demoMRes demo_fitLoop_eval⟩

end Hipercam
